import Mathlib

/-!
# Verification of the `inventory-ledger` core

A shallow embedding of the Go repository `inventory-ledger`:

* `models.Inventory`, `models.InventooryHistory`, `models.SnapshotItem`
  (src/models) become the structures `Entry`, `HistRecord`, `SnapItem`;
* the repository layer (`src/repositories/inventory.repository.go`) becomes
  the query functions `currentBalance`, `balanceAt`, `balanceBefore`,
  `firstStockExists` and the pure function `recalculateForward`;
* the service layer (`src/services`) becomes `createTransaction`,
  `createMutation`, `createOpname`, `updateTransaction` /
  `handleOpnameUpdate`, `deleteTransaction`, `createHistory`,
  `rollbackTransaction`.

Modelling conventions:

* A `LedgerState` is the whole relational store: the `inventories` table,
  the `inventory_histories` table, and a counter `fresh` supplying the
  server-assigned identifiers (UUID primary keys, `uuid.New()` reference
  ids) and the strictly increasing `created_at` insertion timestamps.
* Timestamps (`txn_date`, `created_at`) are `Nat`; quantities are `Int`
  (Go `int`).  Transaction kinds and history actions are the literal Go
  strings (`"stok_awal"`, `"penerimaan"`, `"pemakaian"`, `"mutation"`,
  `"opname"`; `"CREATE"`, `"OPNAME"`, `"MUTATION_IN"`, `"MUTATION_OUT"`,
  `"UPDATE_BEFORE"`, `"UPDATE_AFTER"`, `"DELETE_BEFORE"`, `"ROLLBACK"`).
* `gorm.DeletedAt` soft deletion is the Boolean tombstone flag `deleted`;
  gorm's default scope (`deleted_at IS NULL`) is the `liveIn` filter, and
  `Unscoped()` lookups search `entries` without that filter.
* SQL `ORDER BY txn_date ASC, created_at ASC` is insertion sort by the
  lexicographic relation `entLE`; `ORDER BY ... DESC ... LIMIT 1` is the
  last element of the ascending list (`lastBal`).
* Every service method runs inside `s.DB.Transaction(...)`: an error
  return aborts the whole transaction, so a failing operation is modelled
  by `Except.error` carrying no state, and `committed` realises the
  "rolled back" result state.  The store itself never fails in the model.
* Error values classify the `errors.New` messages of the source by the
  spec's taxonomy: `validation` ("amount cannot be zero", "pemakaian
  amount must be negative", "penerimaan amount must be positive",
  "invalid transaction type"), `conflict` ("stok awal already exists for
  this item"), `insufficientStock` ("insufficient stock in source
  organization"), `notFound` (gorm `ErrRecordNotFound`), `unsupported`
  ("unsupported history action for rollback"), `store` (other store/JSON
  failures, e.g. `json.Unmarshal` of a NULL snapshot column).
* Pure audit metadata that never influences control flow or any claim
  (`CreatedBy`, `UpdatedBy`, `DeletedBy`, `Source`, `PageCode`, `Notes`,
  `TargetID`, `ChangedBy`, `Reason`) is omitted from the embedding.
-/

namespace InvLedger

/-- A row of the `inventories` table (`models.Inventory`). -/
structure Entry where
  id : Nat
  orgId : Nat
  itemId : Nat
  txnDate : Nat
  createdAt : Nat
  amount : Int
  balance : Int
  kind : String
  refId : Option Nat
  fromOrgId : Option Nat
  toOrgId : Option Nat
  physicalQty : Option Int
  systemQty : Option Int
  difference : Option Int
  deleted : Bool
  deriving DecidableEq, Repr

/-- One element of a history snapshot (`models.SnapshotItem`). -/
structure SnapItem where
  entryId : Nat
  txnDate : Nat
  amount : Int
  balance : Int
  kind : String
  refId : Option Nat
  deriving DecidableEq, Repr

/-- A row of the `inventory_histories` table (`models.InventoryHistory`).
`dataBefore`/`dataAfter` are `none` when the corresponding JSON column is
NULL (the code fills exactly one of the two). -/
structure HistRecord where
  id : Nat
  orgId : Nat
  itemId : Nat
  triggerId : Option Nat
  snapshotFromDate : Nat
  action : String
  dataBefore : Option (List SnapItem)
  dataAfter : Option (List SnapItem)
  deriving DecidableEq, Repr

/-- The whole store: both tables plus the id/timestamp allocator. -/
structure LedgerState where
  entries : List Entry
  history : List HistRecord
  fresh : Nat
  deriving DecidableEq, Repr

/-- The empty store. -/
def init : LedgerState := { entries := [], history := [], fresh := 0 }

/-- Error kinds surfaced by the core (classification of the `errors.New`
messages, see the module docstring). -/
inductive Err where
  | validation
  | conflict
  | insufficientStock
  | notFound
  | unsupported
  | store
  deriving DecidableEq, Repr

/-- `s.DB.Transaction` semantics: an error rolls the store back. -/
def committed (s : LedgerState) : Except Err LedgerState → LedgerState
  | .ok t => t
  | .error _ => s

/-! ## Ordering and queries (the Ledger Store layer) -/

/-- `ORDER BY txn_date ASC, created_at ASC`. -/
def entLE (a b : Entry) : Prop :=
  a.txnDate < b.txnDate ∨ (a.txnDate = b.txnDate ∧ a.createdAt ≤ b.createdAt)

instance : DecidableRel entLE := fun a b => by
  unfold entLE; infer_instance

instance : IsTotal Entry entLE := ⟨by intro a b; unfold entLE; omega⟩

instance : IsTrans Entry entLE := ⟨by intro a b c; unfold entLE; omega⟩

/-- The sort key used by every ledger query. -/
def entKey (e : Entry) : Nat × Nat := (e.txnDate, e.createdAt)

/-- Sorting a set of rows in canonical ledger order. -/
def sortE (l : List Entry) : List Entry := List.insertionSort entLE l

/-- gorm's default scope on a partition:
`organization_id = o AND item_id = i AND deleted_at IS NULL`. -/
def liveIn (o i : Nat) (e : Entry) : Bool :=
  e.orgId == o && e.itemId == i && !e.deleted

/-- All live rows of partition `(o, i)` in canonical ascending order. -/
def sortedLive (s : LedgerState) (o i : Nat) : List Entry :=
  sortE (s.entries.filter (liveIn o i))

/-- The live rows of the partition with `txn_date < d` (ascending). -/
def olderPart (s : LedgerState) (o i d : Nat) : List Entry :=
  (sortedLive s o i).filter (fun e => decide (e.txnDate < d))

/-- The live rows of the partition with `txn_date >= d` (ascending):
the list walked by `RecalculateForward` and by `createHistory`. -/
def liveTailFrom (s : LedgerState) (o i d : Nat) : List Entry :=
  (sortedLive s o i).filter (fun e => decide (d ≤ e.txnDate))

/-- `balance` of the last row of an ascending list, `a` when empty.
Realises `ORDER BY txn_date DESC, created_at DESC LIMIT 1` (with default 0)
applied to the reversed list. -/
def lastBal (a : Int) : List Entry → Int
  | [] => a
  | e :: rest => lastBal e.balance rest

/-- `GetCurrentBalance`: balance of the latest live row, 0 when none. -/
def currentBalance (s : LedgerState) (o i : Nat) : Int :=
  lastBal 0 (sortedLive s o i)

/-- `GetBalanceAt`: balance of the latest live row with `txn_date <= t`. -/
def balanceAt (s : LedgerState) (o i t : Nat) : Int :=
  lastBal 0 ((sortedLive s o i).filter (fun e => decide (e.txnDate ≤ t)))

/-- The anchor query of `RecalculateForward`: balance of the latest live
row with `txn_date < d`, 0 when none. -/
def balanceBefore (s : LedgerState) (o i d : Nat) : Int :=
  lastBal 0 (olderPart s o i d)

/-- `getBalanceBeforeDate`: like `balanceBefore` but excluding row `ex`
(`id != ex`), used by update while the old row is still persistent. -/
def balanceBeforeEx (s : LedgerState) (o i d ex : Nat) : Int :=
  lastBal 0 ((sortedLive s o i).filter
    (fun e => decide (e.txnDate < d) && !(e.id == ex)))

/-- `tx.First(&inventory, id)` under the default soft-delete scope. -/
def findLive (s : LedgerState) (id : Nat) : Option Entry :=
  s.entries.find? (fun e => e.id == id && !e.deleted)

/-- `checkFirstStockExists`: a live `stok_awal` row exists in the partition. -/
def firstStockExists (s : LedgerState) (o i : Nat) : Bool :=
  s.entries.any (fun e => liveIn o i e && e.kind == "stok_awal")

/-! ## The Recalculation Engine (`RecalculateForward`) -/

/-- The replay loop of `RecalculateForward`: walks the live tail in
ascending order carrying the running balance.  Returns the recomputed
tail together with the rows the loop marks `needsUpdate` (the
`batchUpdates` slice that is actually `Save`d).  Note the source marks
every `opname` row `needsUpdate = true` unconditionally, while a normal
row is saved only when its stored balance changed. -/
def recalcFold (running : Int) : List Entry → List Entry × List Entry
  | [] => ([], [])
  | e :: rest =>
    if e.kind == "opname" then
      let systemQty := running
      let physicalQty :=
        match e.physicalQty with
        | some p => p
        | none => e.balance
      let difference := physicalQty - systemQty
      let e2 : Entry :=
        { e with balance := physicalQty, amount := difference,
                 systemQty := some systemQty, physicalQty := some physicalQty,
                 difference := some difference }
      let rec0 := recalcFold physicalQty rest
      (e2 :: rec0.1, e2 :: rec0.2)
    else
      let nb := running + e.amount
      let e2 : Entry := { e with balance := nb }
      let rec0 := recalcFold nb rest
      (e2 :: rec0.1, if e.balance == nb then rec0.2 else e2 :: rec0.2)

/-- `tx.Save(&inv)` upserts by primary key: replace the row with the
matching id, if any. -/
def updAssoc (ws : List Entry) (e : Entry) : Entry :=
  match ws.find? (fun u => u.id == e.id) with
  | some u => u
  | none => e

/-- `RecalculateForward(tx, orgID, itemID, fromDate)`: anchor at the last
balance strictly before `d`, replay the live tail, save the changed rows.
Also returns the list of saved rows (for the idempotence claims). -/
def recalculateForward (s : LedgerState) (o i d : Nat) :
    LedgerState × List Entry :=
  let start := balanceBefore s o i d
  let pair := recalcFold start (liveTailFrom s o i d)
  ({ s with entries := s.entries.map (updAssoc pair.2) }, pair.2)

/-! ## The Transaction Coordinator (the service layer) -/

/-- `services.CreateTransactionRequest` (metadata fields omitted). -/
structure CreateReq where
  orgId : Nat
  itemId : Nat
  txnDate : Nat
  amount : Int
  type : String
  refId : Option Nat
  deriving DecidableEq, Repr

/-- `services.MutationRequest` (metadata fields omitted). -/
structure MutReq where
  fromOrgId : Nat
  toOrgId : Nat
  itemId : Nat
  qty : Int
  txnDate : Nat
  deriving DecidableEq, Repr

/-- `services.OpnameRequest` (metadata fields omitted). -/
structure OpnameReq where
  orgId : Nat
  itemId : Nat
  physicalQty : Int
  txnDate : Nat
  refId : Option Nat
  deriving DecidableEq, Repr

/-- `services.UpdateTransactionRequest` (metadata fields omitted). -/
structure UpdateReq where
  inventoryId : Nat
  txnDate : Nat
  amount : Int
  deriving DecidableEq, Repr

/-- `isValidTransactionType`. -/
def isValidTransactionType (t : String) : Bool :=
  t == "stok_awal" || t == "penerimaan" || t == "pemakaian"

/-- `tx.Create(entry)`: append a fresh row (the caller builds the row with
`id = createdAt = s.fresh`). -/
def pushEntry (s : LedgerState) (e : Entry) : LedgerState :=
  { s with entries := s.entries ++ [e], fresh := s.fresh + 1 }

/-- Projection of a row into a snapshot item. -/
def toSnap (e : Entry) : SnapItem :=
  { entryId := e.id, txnDate := e.txnDate, amount := e.amount,
    balance := e.balance, kind := e.kind, refId := e.refId }

/-- The snapshot taken by `createHistory`: the live tail of a partition
from a date, ascending. -/
def snapshotOf (s : LedgerState) (o i d : Nat) : List SnapItem :=
  (liveTailFrom s o i d).map toSnap

/-- `createHistory`: snapshot the live tail of the trigger's partition
from the trigger's date; `UPDATE_BEFORE`/`DELETE_BEFORE` fill
`data_before`, every other action fills `data_after`. -/
def createHistory (s : LedgerState) (trigger : Entry) (action : String) :
    LedgerState :=
  let items := snapshotOf s trigger.orgId trigger.itemId trigger.txnDate
  let isBefore := action = "UPDATE_BEFORE" ∨ action = "DELETE_BEFORE"
  let h : HistRecord :=
    { id := s.fresh, orgId := trigger.orgId, itemId := trigger.itemId,
      triggerId := some trigger.id, snapshotFromDate := trigger.txnDate,
      action := action,
      dataBefore := if isBefore then some items else none,
      dataAfter := if isBefore then none else some items }
  { s with history := s.history ++ [h], fresh := s.fresh + 1 }

/-- Soft-delete one row (`DeletedAt = now`). -/
def softDelete (s : LedgerState) (id : Nat) : LedgerState :=
  { s with
    entries := s.entries.map
      (fun e => if e.id == id then { e with deleted := true } else e) }

/-- The row inserted by `CreateTransaction` (`prevBalance + amount`). -/
def createEntryOf (s : LedgerState) (req : CreateReq) : Entry :=
  { id := s.fresh, orgId := req.orgId, itemId := req.itemId,
    txnDate := req.txnDate, createdAt := s.fresh, amount := req.amount,
    balance := balanceAt s req.orgId req.itemId req.txnDate + req.amount,
    kind := req.type, refId := req.refId, fromOrgId := none, toOrgId := none,
    physicalQty := none, systemQty := none, difference := none,
    deleted := false }

/-- The state a successful `CreateTransaction` commits: insert, `CREATE`
history, recalculate from the transaction date. -/
def createTransactionOk (s : LedgerState) (req : CreateReq) : LedgerState :=
  (recalculateForward
    (createHistory (pushEntry s (createEntryOf s req)) (createEntryOf s req)
      "CREATE")
    req.orgId req.itemId req.txnDate).1

/-- `InventoryService.CreateTransaction`: the guards in source order,
then the committed write. -/
def createTransaction (s : LedgerState) (req : CreateReq) :
    Except Err LedgerState :=
  if req.amount = 0 then .error .validation
  else if req.type = "pemakaian" ∧ 0 < req.amount then .error .validation
  else if req.type = "penerimaan" ∧ req.amount < 0 then .error .validation
  else if isValidTransactionType req.type = false then .error .validation
  else if req.type = "stok_awal" ∧ firstStockExists s req.orgId req.itemId then
    .error .conflict
  else .ok (createTransactionOk s req)

/-- The source leg of a mutation (`uuid.New()` is the ref id `s.fresh`;
the row id and `created_at` come next from the allocator). -/
def mutSrcEntry (s : LedgerState) (req : MutReq) : Entry :=
  { id := s.fresh + 1, orgId := req.fromOrgId, itemId := req.itemId,
    txnDate := req.txnDate, createdAt := s.fresh + 1, amount := -req.qty,
    balance := balanceAt s req.fromOrgId req.itemId req.txnDate - req.qty,
    kind := "mutation", refId := some s.fresh,
    fromOrgId := some req.fromOrgId, toOrgId := some req.toOrgId,
    physicalQty := none, systemQty := none, difference := none,
    deleted := false }

/-- The destination leg of a mutation. -/
def mutDstEntry (s : LedgerState) (req : MutReq) : Entry :=
  { id := s.fresh + 2, orgId := req.toOrgId, itemId := req.itemId,
    txnDate := req.txnDate, createdAt := s.fresh + 2, amount := req.qty,
    balance := balanceAt s req.toOrgId req.itemId req.txnDate + req.qty,
    kind := "mutation", refId := some s.fresh,
    fromOrgId := some req.fromOrgId, toOrgId := some req.toOrgId,
    physicalQty := none, systemQty := none, difference := none,
    deleted := false }

/-- The state a successful `CreateMutation` commits: two legs, two
history records, recalculate both partitions from the transaction date. -/
def createMutationOk (s : LedgerState) (req : MutReq) : LedgerState :=
  let s1 := pushEntry { s with fresh := s.fresh + 1 } (mutSrcEntry s req)
  let s2 := pushEntry s1 (mutDstEntry s req)
  let s3 := createHistory s2 (mutSrcEntry s req) "MUTATION_OUT"
  let s4 := createHistory s3 (mutDstEntry s req) "MUTATION_IN"
  let s5 := (recalculateForward s4 req.fromOrgId req.itemId req.txnDate).1
  (recalculateForward s5 req.toOrgId req.itemId req.txnDate).1

/-- `InventoryService.CreateMutation`.  Note: the only guard in the
service is the insufficient-stock check; `qty >= 1` is enforced solely by
the HTTP handler binding tag (`binding:"required,min=1"`). -/
def createMutation (s : LedgerState) (req : MutReq) :
    Except Err LedgerState :=
  if balanceAt s req.fromOrgId req.itemId req.txnDate < req.qty then
    .error .insufficientStock
  else .ok (createMutationOk s req)

/-- The count row inserted by `CreateOpname`: `system = balance_at`,
`difference = physical - system`, `balance = physical`. -/
def opnameEntryOf (s : LedgerState) (req : OpnameReq) : Entry :=
  { id := s.fresh, orgId := req.orgId, itemId := req.itemId,
    txnDate := req.txnDate, createdAt := s.fresh,
    amount := req.physicalQty - balanceAt s req.orgId req.itemId req.txnDate,
    balance := req.physicalQty, kind := "opname", refId := req.refId,
    fromOrgId := none, toOrgId := none,
    physicalQty := some req.physicalQty,
    systemQty := some (balanceAt s req.orgId req.itemId req.txnDate),
    difference :=
      some (req.physicalQty - balanceAt s req.orgId req.itemId req.txnDate),
    deleted := false }

/-- The state a successful `CreateOpname` commits. -/
def createOpnameOk (s : LedgerState) (req : OpnameReq) : LedgerState :=
  (recalculateForward
    (createHistory (pushEntry s (opnameEntryOf s req)) (opnameEntryOf s req)
      "OPNAME")
    req.orgId req.itemId req.txnDate).1

/-- `InventoryService.CreateOpname` (no guards; the store never fails in
the model). -/
def createOpname (s : LedgerState) (req : OpnameReq) :
    Except Err LedgerState :=
  .ok (createOpnameOk s req)

/-- `handleOpnameUpdate`: the caller's `amount` is the intended
difference; the count fields derive from the balance strictly before the
NEW date (excluding the old row); the old row is tombstoned, the new one
inserted, and recalculation starts at the NEW date only. -/
def opnameNewEntry (sh : LedgerState) (existing : Entry)
    (req : UpdateReq) : Entry :=
  { id := (softDelete sh existing.id).fresh, orgId := existing.orgId,
    itemId := existing.itemId, txnDate := req.txnDate,
    createdAt := (softDelete sh existing.id).fresh, amount := req.amount,
    balance := balanceBeforeEx sh existing.orgId existing.itemId req.txnDate
      existing.id + req.amount,
    kind := "opname", refId := existing.refId, fromOrgId := none,
    toOrgId := none,
    physicalQty := some (balanceBeforeEx sh existing.orgId existing.itemId
      req.txnDate existing.id + req.amount),
    systemQty := some (balanceBeforeEx sh existing.orgId existing.itemId
      req.txnDate existing.id),
    difference := some req.amount, deleted := false }

def opnameUpdateOk (sh : LedgerState) (existing : Entry) (req : UpdateReq) :
    LedgerState :=
  let s1 := softDelete sh existing.id
  let s2 := pushEntry s1 (opnameNewEntry sh existing req)
  (recalculateForward s2 existing.orgId existing.itemId req.txnDate).1

/-- The replacement row of a non-count update: same partition, kind and
ref id; mutation auxiliary fields carried over; balance anchored strictly
before the new date excluding the tombstoned row. -/
def updateNewEntry (s1 : LedgerState) (existing : Entry) (req : UpdateReq) :
    Entry :=
  { id := s1.fresh, orgId := existing.orgId, itemId := existing.itemId,
    txnDate := req.txnDate, createdAt := s1.fresh, amount := req.amount,
    balance := balanceBeforeEx s1 existing.orgId existing.itemId req.txnDate
      existing.id + req.amount,
    kind := existing.kind, refId := existing.refId,
    fromOrgId := if existing.kind == "mutation" then existing.fromOrgId
                 else none,
    toOrgId := if existing.kind == "mutation" then existing.toOrgId
               else none,
    physicalQty := none, systemQty := none, difference := none,
    deleted := false }

/-- The state a successful non-count `UpdateTransaction` commits:
`UPDATE_BEFORE` history, tombstone, insert replacement, `UPDATE_AFTER`
history, recalculate from the EARLIER of the two dates. -/
def updateOk (s : LedgerState) (existing : Entry) (req : UpdateReq) :
    LedgerState :=
  let sh := createHistory s existing "UPDATE_BEFORE"
  let s1 := softDelete sh existing.id
  let s2 := pushEntry s1 (updateNewEntry s1 existing req)
  let s3 := createHistory s2 (updateNewEntry s1 existing req) "UPDATE_AFTER"
  (recalculateForward s3 existing.orgId existing.itemId
    (min existing.txnDate req.txnDate)).1

/-- `InventoryService.UpdateTransaction`.  A count target delegates to
`handleOpnameUpdate` right after the `UPDATE_BEFORE` history (which is
the only history record of that path). -/
def updateTransaction (s : LedgerState) (req : UpdateReq) :
    Except Err LedgerState :=
  match findLive s req.inventoryId with
  | none => .error .notFound
  | some existing =>
    if existing.kind == "opname" then
      .ok (opnameUpdateOk (createHistory s existing "UPDATE_BEFORE")
        existing req)
    else .ok (updateOk s existing req)

/-- The state a successful `DeleteTransaction` commits: `DELETE_BEFORE`
history, tombstone, recalculate from the deleted row's date. -/
def deleteOk (s : LedgerState) (inv : Entry) : LedgerState :=
  let s1 := createHistory s inv "DELETE_BEFORE"
  let s2 := softDelete s1 inv.id
  (recalculateForward s2 inv.orgId inv.itemId inv.txnDate).1

/-- `InventoryService.DeleteTransaction`. -/
def deleteTransaction (s : LedgerState) (inventoryId : Nat) :
    Except Err LedgerState :=
  match findLive s inventoryId with
  | none => .error .notFound
  | some inv => .ok (deleteOk s inv)

/-- The tombstoned rows of a partition from a date (ascending), used for
the rollback record's `data_before`
(`Unscoped ... deleted_at IS NOT NULL`). -/
def deletedTailFrom (s : LedgerState) (o i d : Nat) : List Entry :=
  sortE (s.entries.filter
    (fun e => e.orgId == o && e.itemId == i && e.deleted &&
      decide (d ≤ e.txnDate)))

/-- The fresh row skeleton a rollback restore inserts for one snapshot
item (the compact projection carried by the snapshot). -/
def restoreBase (o i : Nat) (st : LedgerState) (item : SnapItem) : Entry :=
  { id := st.fresh, orgId := o, itemId := i, txnDate := item.txnDate,
    createdAt := st.fresh, amount := item.amount, balance := item.balance,
    kind := item.kind, refId := item.refId, fromOrgId := none,
    toOrgId := none, physicalQty := none, systemQty := none,
    difference := none, deleted := false }

/-- The restored row: mutation/opname auxiliary fields are rehydrated
from the tombstoned original via an `Unscoped` lookup by the snapshot's
`entry_id` (left empty when the original is gone). -/
def restoreEntry (o i : Nat) (st : LedgerState) (item : SnapItem) : Entry :=
  if item.kind == "mutation" then
    match st.entries.find? (fun x => x.id == item.entryId) with
    | some original =>
      { restoreBase o i st item with fromOrgId := original.fromOrgId,
                                     toOrgId := original.toOrgId }
    | none => restoreBase o i st item
  else if item.kind == "opname" then
    match st.entries.find? (fun x => x.id == item.entryId) with
    | some original =>
      { restoreBase o i st item with physicalQty := original.physicalQty,
                                     systemQty := original.systemQty,
                                     difference := original.difference }
    | none => restoreBase o i st item
  else restoreBase o i st item

/-- Restoring one snapshot item during rollback (`tx.Create` of the
restored row). -/
def restoreOne (o i : Nat) (st : LedgerState) (item : SnapItem) :
    LedgerState :=
  pushEntry st (restoreEntry o i st item)

/-- The history actions rollback accepts. -/
def rollbackSupported (a : String) : Bool :=
  a == "CREATE" || a == "MUTATION_IN" || a == "MUTATION_OUT" ||
  a == "OPNAME" || a == "UPDATE_BEFORE" || a == "DELETE_BEFORE" ||
  a == "UPDATE_AFTER"

/-- The snapshot column rollback restores: `data_after` for the create
family, `data_before` for `UPDATE_BEFORE`/`DELETE_BEFORE`/`UPDATE_AFTER`. -/
def rollbackSource (h : HistRecord) : Option (List SnapItem) :=
  if h.action == "CREATE" || h.action == "MUTATION_IN" ||
     h.action == "MUTATION_OUT" || h.action == "OPNAME" then h.dataAfter
  else h.dataBefore

/-- Rollback step 3: tombstone every live row of the partition dated at
or after `snapshot_from_date`. -/
def rollbackMassDelete (s : LedgerState) (h : HistRecord) : LedgerState :=
  { s with
    entries := s.entries.map (fun e =>
      if e.orgId == h.orgId && e.itemId == h.itemId && !e.deleted &&
         decide (h.snapshotFromDate ≤ e.txnDate) then
        { e with deleted := true }
      else e) }

/-- The state a successful `RollbackTransaction` commits: mass tombstone,
re-insert the snapshot with fresh ids, recalculate, and append a
`ROLLBACK` record whose `data_before` is the tombstoned tail and whose
`data_after` is the restored live tail. -/
def rollbackOk (s : LedgerState) (h : HistRecord) (items : List SnapItem) :
    LedgerState :=
  let s2 := items.foldl (restoreOne h.orgId h.itemId) (rollbackMassDelete s h)
  let s3 := (recalculateForward s2 h.orgId h.itemId h.snapshotFromDate).1
  let afterItems := snapshotOf s3 h.orgId h.itemId h.snapshotFromDate
  let beforeItems :=
    (deletedTailFrom s3 h.orgId h.itemId h.snapshotFromDate).map toSnap
  let r : HistRecord :=
    { id := s3.fresh, orgId := h.orgId, itemId := h.itemId,
      triggerId := h.triggerId, snapshotFromDate := h.snapshotFromDate,
      action := "ROLLBACK", dataBefore := some beforeItems,
      dataAfter := some afterItems }
  { s3 with history := s3.history ++ [r], fresh := s3.fresh + 1 }

/-- `InventoryService.RollbackTransaction`.  A NULL snapshot column (as
for `UPDATE_AFTER` records, whose `data_before` was never filled) makes
`json.Unmarshal` fail, aborting with a store error. -/
def rollbackTransaction (s : LedgerState) (historyId : Nat) :
    Except Err LedgerState :=
  match s.history.find? (fun h => h.id == historyId) with
  | none => .error .notFound
  | some h =>
    if rollbackSupported h.action = false then .error .unsupported
    else
      match rollbackSource h with
      | none => .error .store
      | some items => .ok (rollbackOk s h items)

/-- The public write surface of the Transaction Coordinator. -/
inductive Op where
  | create (req : CreateReq)
  | mutate (req : MutReq)
  | opname (req : OpnameReq)
  | update (req : UpdateReq)
  | delete (inventoryId : Nat)
  | rollback (historyId : Nat)
  deriving DecidableEq, Repr

/-- One committed public operation. -/
def applyOp (op : Op) (s : LedgerState) : Except Err LedgerState :=
  match op with
  | .create req => createTransaction s req
  | .mutate req => createMutation s req
  | .opname req => createOpname s req
  | .update req => updateTransaction s req
  | .delete id => deleteTransaction s id
  | .rollback hid => rollbackTransaction s hid

/-! ## The balance invariant and well-formedness -/

/-- The per-entry balance law of the spec (§3.2): a non-count row's
balance is the predecessor balance plus its amount; a count row's balance
is its `physical_qty`. -/
def entryOk (prev : Int) (e : Entry) : Bool :=
  if e.kind == "opname" then e.physicalQty == some e.balance
  else e.balance == prev + e.amount

/-- The balance law along an ascending list, threading each row's stored
balance as the next predecessor balance. -/
def chainOk (prev : Int) : List Entry → Bool
  | [] => true
  | e :: rest => entryOk prev e && chainOk e.balance rest

/-- Balance consistency of one partition. -/
def BalancedPartition (s : LedgerState) (o i : Nat) : Prop :=
  chainOk 0 (sortedLive s o i) = true

/-- Balance consistency of the whole ledger: every partition satisfies the
running-sum law over its live rows in `(txn_date, created_at)` order. -/
def Balanced (s : LedgerState) : Prop := ∀ o i, BalancedPartition s o i

/-- Executable form of `Balanced` (partitions not hosting any row are
trivially balanced). -/
def balancedB (s : LedgerState) : Bool :=
  s.entries.all (fun e => chainOk 0 (sortedLive s e.orgId e.itemId))

/-- Well-formedness of the rows table: primary keys are unique, insertion
timestamps are unique, and the allocator dominates both. -/
def WFentries (l : List Entry) (fr : Nat) : Prop :=
  (l.map Entry.id).Nodup ∧ (l.map Entry.createdAt).Nodup ∧
  ∀ e ∈ l, e.id < fr ∧ e.createdAt < fr

/-- The snapshot items stored in a history record. -/
def histItems (h : HistRecord) : List SnapItem :=
  h.dataBefore.getD [] ++ h.dataAfter.getD []

/-- Every stored snapshot only contains rows dated at or after its
`snapshot_from_date` (true by construction of `createHistory`). -/
def WFhist (s : LedgerState) : Prop :=
  ∀ h ∈ s.history, ∀ it ∈ histItems h, h.snapshotFromDate ≤ it.txnDate

/-- Store well-formedness. -/
def WF (s : LedgerState) : Prop := WFentries s.entries s.fresh ∧ WFhist s

/-! ## Ordering and sorting toolkit -/

/-- Rows sorted in canonical order both ways have equal keys. -/
theorem entLE_total_key {a b : Entry} (h1 : entLE a b) (h2 : entLE b a) :
    entKey a = entKey b := by
  unfold entLE at h1 h2
  unfold entKey
  simp only [Prod.mk.injEq]
  omega

/-- The canonical order only depends on the sort key. -/
theorem entLE_key_iff {a b a' b' : Entry} (ha : entKey a' = entKey a)
    (hb : entKey b' = entKey b) : entLE a' b' ↔ entLE a b := by
  unfold entKey at ha hb
  simp only [Prod.mk.injEq] at ha hb
  unfold entLE
  omega

/-- Rows with pairwise distinct sort keys. -/
def NodupKeys (l : List Entry) : Prop := (l.map entKey).Nodup

theorem sortE_sorted (l : List Entry) : (sortE l).Sorted entLE :=
  List.sorted_insertionSort entLE l

theorem sortE_perm (l : List Entry) : (sortE l).Perm l :=
  List.perm_insertionSort entLE l

theorem mem_sortE {l : List Entry} {e : Entry} : e ∈ sortE l ↔ e ∈ l :=
  (sortE_perm l).mem_iff

theorem nodupKeys_perm {l₁ l₂ : List Entry} (h : l₁.Perm l₂)
    (hk : NodupKeys l₁) : NodupKeys l₂ :=
  ((h.map entKey).nodup_iff).mp hk

theorem nodupKeys_sublist {l₁ l₂ : List Entry} (h : l₁.Sublist l₂)
    (hk : NodupKeys l₂) : NodupKeys l₁ :=
  List.Nodup.sublist (h.map entKey) hk

/-- Two sorted permutations of the same rows agree when the keys are
pairwise distinct (the SQL `ORDER BY` result is deterministic). -/
theorem sortedEqOfPerm {l₁ l₂ : List Entry} (p : l₁.Perm l₂)
    (s₁ : l₁.Sorted entLE) (s₂ : l₂.Sorted entLE) (hk : NodupKeys l₁) :
    l₁ = l₂ := by
  induction l₁ generalizing l₂ with
  | nil => exact p.nil_eq
  | cons a t ih =>
    cases l₂ with
    | nil =>
      have := p.length_eq
      simp at this
    | cons b t₂ =>
      rw [List.sorted_cons] at s₁ s₂
      by_cases hab : a = b
      · subst hab
        have hp : t.Perm t₂ := p.cons_inv
        have hkt : NodupKeys t := by
          unfold NodupKeys at hk ⊢
          rw [List.map_cons, List.nodup_cons] at hk
          exact hk.2
        rw [ih hp s₁.2 s₂.2 hkt]
      · exfalso
        have hal₂ : a ∈ b :: t₂ := p.mem_iff.mp (List.mem_cons_self a t)
        have hbl₁ : b ∈ a :: t := p.symm.mem_iff.mp (List.mem_cons_self b t₂)
        have hat₂ : a ∈ t₂ := by
          rcases List.mem_cons.mp hal₂ with h | h
          · exact absurd h hab
          · exact h
        have hbt : b ∈ t := by
          rcases List.mem_cons.mp hbl₁ with h | h
          · exact absurd h.symm hab
          · exact h
        have hkey : entKey a = entKey b :=
          entLE_total_key (s₁.1 b hbt) (s₂.1 a hat₂)
        unfold NodupKeys at hk
        rw [List.map_cons, List.nodup_cons] at hk
        exact hk.1 (by rw [hkey]; exact List.mem_map_of_mem entKey hbt)

/-- Filtering commutes with sorting (`WHERE` before or after `ORDER BY`). -/
theorem sortE_filter (p : Entry → Bool) {l : List Entry} (hk : NodupKeys l) :
    (sortE l).filter p = sortE (l.filter p) := by
  apply sortedEqOfPerm
  · exact ((sortE_perm l).filter p).trans (sortE_perm (l.filter p)).symm
  · exact (sortE_sorted l).filter p
  · exact sortE_sorted _
  · exact nodupKeys_sublist (List.filter_sublist (sortE l))
      (nodupKeys_perm (sortE_perm l).symm hk)

/-- A key-preserving rewrite of the rows commutes with sorting. -/
theorem sortE_map (f : Entry → Entry) (l : List Entry)
    (h : ∀ e ∈ l, entKey (f e) = entKey e) :
    sortE (l.map f) = (sortE l).map f := by
  refine (List.map_insertionSort entLE entLE f l ?_).symm
  intro a ha b hb
  exact (entLE_key_iff (h a ha) (h b hb)).symm

/-- A sorted list splits at a date: rows strictly before `d` first. -/
theorem sorted_split_at (d : Nat) {l : List Entry} (h : l.Sorted entLE) :
    l = l.filter (fun e => decide (e.txnDate < d)) ++
        l.filter (fun e => decide (d ≤ e.txnDate)) := by
  induction l with
  | nil => rfl
  | cons a t ih =>
    rw [List.sorted_cons] at h
    by_cases hd : a.txnDate < d
    · have hd2 : ¬ d ≤ a.txnDate := by omega
      simp only [List.filter_cons, hd, hd2, decide_eq_true_eq, if_pos,
        if_neg, not_false_eq_true, List.cons_append]
      exact congrArg (a :: ·) (ih h.2)
    · have hd2 : d ≤ a.txnDate := by omega
      have h1 : t.filter (fun e => decide (e.txnDate < d)) = [] := by
        rw [List.filter_eq_nil_iff]
        intro x hx
        have hx2 := h.1 x hx
        unfold entLE at hx2
        simp only [decide_eq_true_eq]
        omega
      have h2 : t.filter (fun e => decide (d ≤ e.txnDate)) = t := by
        rw [List.filter_eq_self]
        intro x hx
        have hx2 := h.1 x hx
        unfold entLE at hx2
        simp only [decide_eq_true_eq]
        omega
      simp only [List.filter_cons, hd, hd2, decide_eq_true_eq, if_pos,
        if_neg, not_false_eq_true, h1, h2, List.nil_append]

/-- The chain law splits along an append, threading the last balance. -/
theorem chainOk_append (a : Int) (l₁ l₂ : List Entry) :
    chainOk a (l₁ ++ l₂) = (chainOk a l₁ && chainOk (lastBal a l₁) l₂) := by
  induction l₁ generalizing a with
  | nil => simp [chainOk, lastBal]
  | cons e t ih => simp [chainOk, lastBal, ih, Bool.and_assoc]

/-- Distinct insertion timestamps force distinct sort keys. -/
theorem nodupKeys_of_createdAt {l : List Entry}
    (h : (l.map Entry.createdAt).Nodup) : NodupKeys l := by
  have he : l.map Entry.createdAt = (l.map entKey).map Prod.snd := by
    rw [List.map_map]
    rfl
  exact List.Nodup.of_map Prod.snd (he ▸ h)

theorem nodupKeys_of_wf {l : List Entry} {fr : Nat} (h : WFentries l fr) :
    NodupKeys l :=
  nodupKeys_of_createdAt h.2.1

theorem liveIn_iff {o i : Nat} {e : Entry} :
    liveIn o i e = true ↔ e.orgId = o ∧ e.itemId = i ∧ e.deleted = false := by
  unfold liveIn
  simp [Bool.and_assoc]

theorem mem_sortedLive {s : LedgerState} {o i : Nat} {e : Entry} :
    e ∈ sortedLive s o i ↔ e ∈ s.entries ∧ liveIn o i e = true := by
  unfold sortedLive
  rw [mem_sortE, List.mem_filter]

theorem mem_liveTailFrom {s : LedgerState} {o i d : Nat} {e : Entry} :
    e ∈ liveTailFrom s o i d ↔
      (e ∈ s.entries ∧ liveIn o i e = true) ∧ d ≤ e.txnDate := by
  unfold liveTailFrom
  rw [List.mem_filter, mem_sortedLive]
  simp

theorem nodupIds_sortedLive (s : LedgerState) (o i : Nat)
    (hid : (s.entries.map Entry.id).Nodup) :
    ((sortedLive s o i).map Entry.id).Nodup := by
  have h1 : ((s.entries.filter (liveIn o i)).map Entry.id).Nodup :=
    List.Nodup.sublist ((List.filter_sublist s.entries).map Entry.id) hid
  exact ((sortE_perm (s.entries.filter (liveIn o i))).map Entry.id).nodup_iff.mpr h1

theorem nodupIds_liveTail (s : LedgerState) (o i d : Nat)
    (hid : (s.entries.map Entry.id).Nodup) :
    ((liveTailFrom s o i d).map Entry.id).Nodup :=
  List.Nodup.sublist ((List.filter_sublist (sortedLive s o i)).map Entry.id)
    (nodupIds_sortedLive s o i hid)

/-- The canonical split of a partition's live rows at a pivot date. -/
theorem sortedLive_split (s : LedgerState) (o i d : Nat) :
    sortedLive s o i = olderPart s o i d ++ liveTailFrom s o i d :=
  sorted_split_at d (sortE_sorted _)

theorem mem_olderPart {s : LedgerState} {o i d : Nat} {e : Entry} :
    e ∈ olderPart s o i d ↔
      (e ∈ s.entries ∧ liveIn o i e = true) ∧ e.txnDate < d := by
  unfold olderPart
  rw [List.mem_filter, mem_sortedLive]
  simp

/-! ## Properties of the Recalculation Engine -/

/-- The fields `RecalculateForward` never rewrites (it only touches
`balance`, the count columns, and — only on `opname` rows — `amount`). -/
def sameCore (a b : Entry) : Prop :=
  a.id = b.id ∧ a.orgId = b.orgId ∧ a.itemId = b.itemId ∧
  a.txnDate = b.txnDate ∧ a.createdAt = b.createdAt ∧ a.kind = b.kind ∧
  a.refId = b.refId ∧ a.fromOrgId = b.fromOrgId ∧ a.toOrgId = b.toOrgId ∧
  a.deleted = b.deleted ∧ (a.kind ≠ "opname" → a.amount = b.amount)

theorem sameCore_refl (a : Entry) : sameCore a a := by
  unfold sameCore
  simp

/-- Every row of the recomputed tail is a core-preserving rewrite of a
row of the input tail. -/
theorem recalcFold_mem_core (running : Int) (l : List Entry) :
    ∀ u ∈ (recalcFold running l).1, ∃ t ∈ l, sameCore t u := by
  induction l generalizing running with
  | nil =>
    intro u hu
    simp [recalcFold] at hu
  | cons e t ih =>
    intro u hu
    by_cases hk : e.kind == "opname"
    · simp only [recalcFold, hk, if_pos, List.mem_cons] at hu
      rcases hu with hu | hu
      · refine ⟨e, List.mem_cons_self e t, ?_⟩
        subst hu
        unfold sameCore
        refine ⟨rfl, rfl, rfl, rfl, rfl, rfl, rfl, rfl, rfl, rfl, ?_⟩
        intro hne
        exact absurd (eq_of_beq hk) hne
      · obtain ⟨x, hx, hc⟩ := ih _ u hu
        exact ⟨x, List.mem_cons_of_mem e hx, hc⟩
    · simp only [recalcFold, hk, if_neg, Bool.false_eq_true,
        not_false_eq_true, List.mem_cons] at hu
      rcases hu with hu | hu
      · refine ⟨e, List.mem_cons_self e t, ?_⟩
        subst hu
        unfold sameCore
        exact ⟨rfl, rfl, rfl, rfl, rfl, rfl, rfl, rfl, rfl, rfl, fun _ => rfl⟩
      · obtain ⟨x, hx, hc⟩ := ih _ u hu
        exact ⟨x, List.mem_cons_of_mem e hx, hc⟩

/-- The saved rows (`batchUpdates`) are a sublist of the recomputed tail. -/
theorem recalcFold_writes_sublist (running : Int) (l : List Entry) :
    (recalcFold running l).2.Sublist (recalcFold running l).1 := by
  induction l generalizing running with
  | nil => simp [recalcFold]
  | cons e t ih =>
    by_cases hk : e.kind == "opname"
    · simp only [recalcFold, hk, if_pos]
      exact List.Sublist.cons₂ _ (ih _)
    · by_cases hb : e.balance == running + e.amount
      · simp only [recalcFold, hk, if_neg, Bool.false_eq_true,
          not_false_eq_true, hb, if_pos]
        exact List.Sublist.cons _ (ih _)
      · simp only [recalcFold, hk, if_neg, Bool.false_eq_true,
          not_false_eq_true, hb]
        exact List.Sublist.cons₂ _ (ih _)

/-- The replay loop preserves the row ids in order. -/
theorem recalcFold_ids (running : Int) (l : List Entry) :
    ((recalcFold running l).1).map Entry.id = l.map Entry.id := by
  induction l generalizing running with
  | nil => rfl
  | cons e t ih =>
    by_cases hk : e.kind == "opname" <;>
      simp [recalcFold, hk, ih]

/-- The recomputed tail satisfies the balance chain law from the anchor. -/
theorem recalcFold_chain (running : Int) (l : List Entry) :
    chainOk running (recalcFold running l).1 = true := by
  induction l generalizing running with
  | nil => rfl
  | cons e t ih =>
    by_cases hk : e.kind == "opname"
    · simp [recalcFold, hk, chainOk, entryOk, ih]
    · simp [recalcFold, hk, chainOk, entryOk, ih]

theorem updAssoc_id (ws : List Entry) (e : Entry) :
    (updAssoc ws e).id = e.id := by
  unfold updAssoc
  cases h : ws.find? (fun u => u.id == e.id) with
  | none => rfl
  | some u => simpa using List.find?_some h

theorem updAssoc_cons_self {u x : Entry} (ws : List Entry) (h : u.id = x.id) :
    updAssoc (u :: ws) x = u := by
  unfold updAssoc
  rw [List.find?_cons_of_pos _ (by simp [h])]

theorem updAssoc_cons_ne {u x : Entry} (ws : List Entry) (h : u.id ≠ x.id) :
    updAssoc (u :: ws) x = updAssoc ws x := by
  unfold updAssoc
  rw [List.find?_cons_of_neg _ (by simp [h])]

theorem updAssoc_not_mem {ws : List Entry} {x : Entry}
    (h : ∀ u ∈ ws, u.id ≠ x.id) : updAssoc ws x = x := by
  unfold updAssoc
  rw [List.find?_eq_none.mpr (by intro u hu; simp [h u hu])]

theorem map_updAssoc_cons {t : List Entry} (u : Entry) (ws : List Entry)
    (h : ∀ x ∈ t, ¬ u.id = x.id) :
    t.map (updAssoc (u :: ws)) = t.map (updAssoc ws) :=
  List.map_congr_left (fun x hx => updAssoc_cons_ne ws (h x hx))

/-- Saving the `batchUpdates` rows over the input tail reproduces the
recomputed tail (rows not saved were unchanged). -/
theorem map_updAssoc_recalcFold (running : Int) (l : List Entry)
    (hnd : (l.map Entry.id).Nodup) :
    l.map (updAssoc (recalcFold running l).2) = (recalcFold running l).1 := by
  induction l generalizing running with
  | nil => rfl
  | cons e t ih =>
    rw [List.map_cons, List.nodup_cons] at hnd
    have hnotin : ∀ x ∈ t, e.id ≠ x.id := by
      intro x hx hEq
      exact hnd.1 (hEq ▸ List.mem_map_of_mem Entry.id hx)
    by_cases hk : e.kind == "opname"
    · simp only [recalcFold, hk, if_pos, List.map_cons]
      congr 1
      · exact updAssoc_cons_self _ rfl
      · rw [map_updAssoc_cons]
        · exact ih _ hnd.2
        · exact fun x hx => hnotin x hx
    · by_cases hb : e.balance == running + e.amount
      · have hb2 : e.balance = running + e.amount := by simpa using hb
        have he2 : ({ e with balance := running + e.amount } : Entry) = e := by
          rw [← hb2]
        simp only [recalcFold, hk, if_neg, Bool.false_eq_true,
          not_false_eq_true, hb, if_pos, List.map_cons, he2]
        congr 1
        · apply updAssoc_not_mem
          intro u hu
          have hu2 : u.id ∈ ((recalcFold (running + e.amount) t).2).map Entry.id :=
            List.mem_map_of_mem Entry.id hu
          have hu3 : u.id ∈ ((recalcFold (running + e.amount) t).1).map Entry.id :=
            ((recalcFold_writes_sublist _ t).map Entry.id).subset hu2
          rw [recalcFold_ids] at hu3
          intro hEq
          exact hnd.1 (hEq ▸ hu3)
        · exact ih _ hnd.2
      · simp only [recalcFold, hk, if_neg, Bool.false_eq_true,
          not_false_eq_true, hb, List.map_cons]
        congr 1
        · exact updAssoc_cons_self _ rfl
        · rw [map_updAssoc_cons]
          · exact ih _ hnd.2
          · exact fun x hx => hnotin x hx

/-- A fixed point of the replay loop with no count rows is write-free
and unchanged. -/
theorem recalcFold_fix (running : Int) (l : List Entry)
    (hk : ∀ e ∈ l, e.kind ≠ "opname") (hc : chainOk running l = true) :
    recalcFold running l = (l, []) := by
  induction l generalizing running with
  | nil => rfl
  | cons e t ih =>
    have hke : ¬ (e.kind == "opname") = true := by
      simpa using hk e (List.mem_cons_self e t)
    rw [chainOk, Bool.and_eq_true] at hc
    have hbal : e.balance = running + e.amount := by
      have := hc.1
      unfold entryOk at this
      rw [if_neg hke] at this
      simpa using this
    have hb : (e.balance == running + e.amount) = true := by
      simpa using hbal
    have he2 : ({ e with balance := running + e.amount } : Entry) = e := by
      rw [← hbal]
    simp only [recalcFold, hke, if_neg, Bool.false_eq_true, not_false_eq_true,
      hb, if_pos, he2]
    rw [← hbal] at *
    rw [ih e.balance (fun x hx => hk x (List.mem_cons_of_mem e hx)) hc.2]

/-- The `batchUpdates` list of one `RecalculateForward` call. -/
def recalcWrites (s : LedgerState) (o i d : Nat) : List Entry :=
  (recalcFold (balanceBefore s o i d) (liveTailFrom s o i d)).2

/-- The recomputed tail of one `RecalculateForward` call. -/
def recalcTail (s : LedgerState) (o i d : Nat) : List Entry :=
  (recalcFold (balanceBefore s o i d) (liveTailFrom s o i d)).1

theorem recalc_fst_entries (s : LedgerState) (o i d : Nat) :
    (recalculateForward s o i d).1.entries =
      s.entries.map (updAssoc (recalcWrites s o i d)) := rfl

theorem recalc_fst_history (s : LedgerState) (o i d : Nat) :
    (recalculateForward s o i d).1.history = s.history := rfl

theorem recalc_fst_fresh (s : LedgerState) (o i d : Nat) :
    (recalculateForward s o i d).1.fresh = s.fresh := rfl

theorem recalc_snd (s : LedgerState) (o i d : Nat) :
    (recalculateForward s o i d).2 = recalcWrites s o i d := rfl

/-- Saving the recalculated rows is a core-preserving rewrite of the
stored rows (ids being unique). -/
theorem updAssoc_recalc_core (s : LedgerState) (o i d : Nat)
    (hid : (s.entries.map Entry.id).Nodup) {e : Entry}
    (he : e ∈ s.entries) :
    sameCore e (updAssoc (recalcWrites s o i d) e) := by
  rcases hf : (recalcWrites s o i d).find? (fun u => u.id == e.id) with _ | u
  · unfold updAssoc
    rw [hf]
    exact sameCore_refl e
  · have hu1 : u ∈ recalcTail s o i d :=
      (recalcFold_writes_sublist _ _).subset (List.mem_of_find?_eq_some hf)
    obtain ⟨t, ht, hcore⟩ := recalcFold_mem_core _ _ u hu1
    have ht2 : t ∈ s.entries := (mem_liveTailFrom.mp ht).1.1
    have hid1 : u.id = e.id := by simpa using List.find?_some hf
    have hte : t = e :=
      List.inj_on_of_nodup_map hid ht2 he (by rw [hcore.1, hid1])
    unfold updAssoc
    rw [hf]
    exact hte ▸ hcore

theorem updAssoc_recalc_key (s : LedgerState) (o i d : Nat)
    (hid : (s.entries.map Entry.id).Nodup) {e : Entry}
    (he : e ∈ s.entries) :
    entKey (updAssoc (recalcWrites s o i d) e) = entKey e := by
  obtain ⟨_, _, _, h4, h5, _⟩ := updAssoc_recalc_core s o i d hid he
  unfold entKey
  rw [← h4, ← h5]

theorem updAssoc_recalc_liveIn (s : LedgerState) (o i d o' i' : Nat)
    (hid : (s.entries.map Entry.id).Nodup) {e : Entry}
    (he : e ∈ s.entries) :
    liveIn o' i' (updAssoc (recalcWrites s o i d) e) = liveIn o' i' e := by
  obtain ⟨_, h2, h3, _, _, _, _, _, _, h10, _⟩ :=
    updAssoc_recalc_core s o i d hid he
  unfold liveIn
  rw [← h2, ← h3, ← h10]

/-- After a recalculation, any partition's live view is the pointwise
save of its old live view. -/
theorem recalc_sortedLive (s : LedgerState) (o i d o' i' : Nat)
    (hid : (s.entries.map Entry.id).Nodup) :
    sortedLive (recalculateForward s o i d).1 o' i' =
      (sortedLive s o' i').map (updAssoc (recalcWrites s o i d)) := by
  unfold sortedLive
  rw [recalc_fst_entries, List.filter_map]
  have h1 : s.entries.filter (liveIn o' i' ∘ updAssoc (recalcWrites s o i d))
      = s.entries.filter (liveIn o' i') :=
    List.filter_congr (fun e he => by
      simpa using updAssoc_recalc_liveIn s o i d o' i' hid he)
  rw [h1]
  exact sortE_map _ _ (fun e he =>
    updAssoc_recalc_key s o i d hid (List.mem_of_mem_filter he))

/-- Recalculating one partition leaves every other partition untouched. -/
theorem recalc_sortedLive_other (s : LedgerState) (o i d o' i' : Nat)
    (hwf : WFentries s.entries s.fresh) (hne : ¬ (o' = o ∧ i' = i)) :
    sortedLive (recalculateForward s o i d).1 o' i' = sortedLive s o' i' := by
  rw [recalc_sortedLive s o i d o' i' hwf.1]
  have hpt : ∀ e ∈ sortedLive s o' i',
      updAssoc (recalcWrites s o i d) e = e := by
    intro e he
    apply updAssoc_not_mem
    intro u hu hEq
    obtain ⟨t, ht, hcore⟩ := recalcFold_mem_core _ _ u
      ((recalcFold_writes_sublist _ _).subset hu)
    obtain ⟨hes, hel⟩ := mem_sortedLive.mp he
    obtain ⟨hts, htl⟩ := (mem_liveTailFrom.mp ht).1
    have hte : t = e :=
      List.inj_on_of_nodup_map hwf.1 hts hes (by rw [hcore.1, hEq])
    rw [hte] at htl
    obtain ⟨ho1, hi1, _⟩ := liveIn_iff.mp htl
    obtain ⟨ho2, hi2, _⟩ := liveIn_iff.mp hel
    exact hne ⟨by omega, by omega⟩
  rw [List.map_congr_left hpt, List.map_id']

/-- Recalculating a partition from `d` rewrites exactly its live tail
from `d`: the older rows survive unchanged, the tail is the replay. -/
theorem recalc_sortedLive_target (s : LedgerState) (o i d : Nat)
    (hwf : WFentries s.entries s.fresh) :
    sortedLive (recalculateForward s o i d).1 o i =
      olderPart s o i d ++ recalcTail s o i d := by
  rw [recalc_sortedLive s o i d o i hwf.1]
  conv_lhs => rw [sortedLive_split s o i d]
  rw [List.map_append]
  congr 1
  · have hpt : ∀ e ∈ olderPart s o i d,
        updAssoc (recalcWrites s o i d) e = e := by
      intro e he
      apply updAssoc_not_mem
      intro u hu hEq
      obtain ⟨t, ht, hcore⟩ := recalcFold_mem_core _ _ u
        ((recalcFold_writes_sublist _ _).subset hu)
      obtain ⟨⟨hes, _⟩, hlt⟩ := mem_olderPart.mp he
      obtain ⟨⟨hts, _⟩, hge⟩ := mem_liveTailFrom.mp ht
      have hte : t = e :=
        List.inj_on_of_nodup_map hwf.1 hts hes (by rw [hcore.1, hEq])
      rw [hte] at hge
      omega
    rw [List.map_congr_left hpt, List.map_id']
  · exact map_updAssoc_recalcFold _ _ (nodupIds_liveTail s o i d hwf.1)

/-- A balanced partition stays chain-consistent on any strict head. -/
theorem balanced_older {s : LedgerState} {o i : Nat} (d : Nat)
    (hb : BalancedPartition s o i) :
    chainOk 0 (olderPart s o i d) = true := by
  unfold BalancedPartition at hb
  rw [sortedLive_split s o i d, chainOk_append, Bool.and_eq_true] at hb
  exact hb.1

/-- The heart of the invariant argument: if the rows strictly before the
pivot are chain-consistent, recalculation makes the partition balanced. -/
theorem recalc_balanced (s : LedgerState) (o i d : Nat)
    (hwf : WFentries s.entries s.fresh)
    (hpre : chainOk 0 (olderPart s o i d) = true) :
    BalancedPartition (recalculateForward s o i d).1 o i := by
  unfold BalancedPartition
  rw [recalc_sortedLive_target s o i d hwf, chainOk_append, hpre,
    Bool.true_and]
  exact recalcFold_chain _ _

/-- A pointwise id/timestamp-preserving rewrite keeps the table
well-formed. -/
theorem wf_map {l : List Entry} {fr : Nat} (f : Entry → Entry)
    (h : ∀ e ∈ l, (f e).id = e.id ∧ (f e).createdAt = e.createdAt)
    (hwf : WFentries l fr) : WFentries (l.map f) fr := by
  obtain ⟨h1, h2, h3⟩ := hwf
  refine ⟨?_, ?_, ?_⟩
  · rw [List.map_map]
    simp only [Function.comp_def]
    rw [List.map_congr_left (fun e he => (h e he).1)]
    exact h1
  · rw [List.map_map]
    simp only [Function.comp_def]
    rw [List.map_congr_left (fun e he => (h e he).2)]
    exact h2
  · intro x hx
    obtain ⟨e, he, rfl⟩ := List.mem_map.mp hx
    rw [(h e he).1, (h e he).2]
    exact h3 e he

theorem wf_recalc (s : LedgerState) (o i d : Nat)
    (hwf : WFentries s.entries s.fresh) :
    WFentries (recalculateForward s o i d).1.entries
      (recalculateForward s o i d).1.fresh := by
  rw [recalc_fst_entries, recalc_fst_fresh]
  apply wf_map _ _ hwf
  intro e he
  have core := updAssoc_recalc_core s o i d hwf.1 he
  exact ⟨(core.1).symm, (core.2.2.2.2.1).symm⟩

theorem recalcTail_dates (s : LedgerState) (o i d : Nat) :
    ∀ u ∈ recalcTail s o i d, d ≤ u.txnDate := by
  intro u hu
  obtain ⟨t, ht, hcore⟩ := recalcFold_mem_core _ _ u hu
  have hd := (mem_liveTailFrom.mp ht).2
  rw [hcore.2.2.2.1] at hd
  exact hd

/-- Recalculation does not move the pre-pivot anchor rows. -/
theorem recalc_olderPart (s : LedgerState) (o i d : Nat)
    (hwf : WFentries s.entries s.fresh) :
    olderPart (recalculateForward s o i d).1 o i d = olderPart s o i d := by
  unfold olderPart
  conv_lhs => rw [show sortedLive (recalculateForward s o i d).1 o i
    = olderPart s o i d ++ recalcTail s o i d
    from recalc_sortedLive_target s o i d hwf]
  rw [List.filter_append]
  have h1 : (olderPart s o i d).filter (fun e => decide (e.txnDate < d))
      = olderPart s o i d :=
    List.filter_eq_self.mpr (fun e he => by
      simpa using (mem_olderPart.mp he).2)
  have h2 : (recalcTail s o i d).filter (fun e => decide (e.txnDate < d))
      = [] :=
    List.filter_eq_nil_iff.mpr (fun u hu => by
      have := recalcTail_dates s o i d u hu
      simp only [decide_eq_true_eq]
      omega)
  rw [h1, h2, List.append_nil]
  rfl

theorem recalc_balanceBefore (s : LedgerState) (o i d : Nat)
    (hwf : WFentries s.entries s.fresh) :
    balanceBefore (recalculateForward s o i d).1 o i d
      = balanceBefore s o i d := by
  unfold balanceBefore
  rw [recalc_olderPart s o i d hwf]

/-- The live tail right after a recalculation is the recomputed tail. -/
theorem recalc_liveTail (s : LedgerState) (o i d : Nat)
    (hwf : WFentries s.entries s.fresh) :
    liveTailFrom (recalculateForward s o i d).1 o i d
      = recalcTail s o i d := by
  unfold liveTailFrom
  conv_lhs => rw [show sortedLive (recalculateForward s o i d).1 o i
    = olderPart s o i d ++ recalcTail s o i d
    from recalc_sortedLive_target s o i d hwf]
  rw [List.filter_append]
  have h1 : (olderPart s o i d).filter (fun e => decide (d ≤ e.txnDate))
      = [] :=
    List.filter_eq_nil_iff.mpr (fun e he => by
      have := (mem_olderPart.mp he).2
      simp only [decide_eq_true_eq]
      omega)
  have h2 : (recalcTail s o i d).filter (fun e => decide (d ≤ e.txnDate))
      = recalcTail s o i d :=
    List.filter_eq_self.mpr (fun u hu => by
      simpa using recalcTail_dates s o i d u hu)
  rw [h1, h2, List.nil_append]

/-! ## Step lemmas for the Coordinator primitives -/

theorem hist_entries (s : LedgerState) (t : Entry) (a : String) :
    (createHistory s t a).entries = s.entries := rfl

theorem hist_fresh (s : LedgerState) (t : Entry) (a : String) :
    (createHistory s t a).fresh = s.fresh + 1 := rfl

theorem sortedLive_hist (s : LedgerState) (t : Entry) (a : String)
    (o i : Nat) : sortedLive (createHistory s t a) o i = sortedLive s o i :=
  rfl

theorem olderPart_hist (s : LedgerState) (t : Entry) (a : String)
    (o i d : Nat) :
    olderPart (createHistory s t a) o i d = olderPart s o i d := rfl

theorem wf_mono {l : List Entry} {fr fr' : Nat} (h : fr ≤ fr')
    (hwf : WFentries l fr) : WFentries l fr' :=
  ⟨hwf.1, hwf.2.1, fun e he =>
    ⟨lt_of_lt_of_le (hwf.2.2 e he).1 h,
     lt_of_lt_of_le (hwf.2.2 e he).2 h⟩⟩

theorem wf_hist (s : LedgerState) (t : Entry) (a : String)
    (hwf : WFentries s.entries s.fresh) :
    WFentries (createHistory s t a).entries (createHistory s t a).fresh :=
  wf_mono (Nat.le_succ _) hwf

theorem wf_push {s : LedgerState} {e : Entry}
    (hwf : WFentries s.entries s.fresh) (hi : e.id = s.fresh)
    (hc : e.createdAt = s.fresh) :
    WFentries (pushEntry s e).entries (pushEntry s e).fresh := by
  obtain ⟨h1, h2, h3⟩ := hwf
  refine ⟨?_, ?_, ?_⟩
  · show ((s.entries ++ [e]).map Entry.id).Nodup
    rw [List.map_append, List.nodup_append]
    refine ⟨h1, by simp, ?_⟩
    intro x hx hx2
    simp only [List.map_cons, List.map_nil, List.mem_singleton] at hx2
    obtain ⟨y, hy, rfl⟩ := List.mem_map.mp hx
    have := (h3 y hy).1
    omega
  · show ((s.entries ++ [e]).map Entry.createdAt).Nodup
    rw [List.map_append, List.nodup_append]
    refine ⟨h2, by simp, ?_⟩
    intro x hx hx2
    simp only [List.map_cons, List.map_nil, List.mem_singleton] at hx2
    obtain ⟨y, hy, rfl⟩ := List.mem_map.mp hx
    have := (h3 y hy).2
    omega
  · show ∀ x ∈ s.entries ++ [e], x.id < s.fresh + 1 ∧
      x.createdAt < s.fresh + 1
    intro x hx
    rcases List.mem_append.mp hx with hx | hx
    · have := h3 x hx
      omega
    · simp only [List.mem_singleton] at hx
      subst hx
      omega

theorem liveIn_false_of_ne (o i o' i' : Nat) (e : Entry)
    (ho : e.orgId = o) (hi : e.itemId = i) (hne : ¬ (o' = o ∧ i' = i)) :
    liveIn o' i' e = false := by
  rw [Bool.eq_false_iff]
  intro hl
  rw [liveIn_iff] at hl
  obtain ⟨h1, h2, _⟩ := hl
  exact hne ⟨by omega, by omega⟩

/-- Inserting a row of another partition does not affect a partition's
live view. -/
theorem push_sortedLive_other (s : LedgerState) (e : Entry) (o i : Nat)
    (h : liveIn o i e = false) :
    sortedLive (pushEntry s e) o i = sortedLive s o i := by
  unfold sortedLive
  show sortE ((s.entries ++ [e]).filter (liveIn o i)) = _
  rw [List.filter_append,
    show [e].filter (liveIn o i) = [] by simp [h], List.append_nil]

/-- Inserting a row dated at or after the pivot leaves the pre-pivot rows
of every partition unchanged. -/
theorem push_olderPart (s : LedgerState) (e : Entry) (o i d : Nat)
    (hwf : WFentries s.entries s.fresh) (hi : e.id = s.fresh)
    (hc : e.createdAt = s.fresh) (hd : d ≤ e.txnDate) :
    olderPart (pushEntry s e) o i d = olderPart s o i d := by
  unfold olderPart sortedLive
  show (sortE ((s.entries ++ [e]).filter (liveIn o i))).filter _ = _
  rw [sortE_filter _ (nodupKeys_sublist (List.filter_sublist _)
      (show NodupKeys (s.entries ++ [e]) from
        nodupKeys_of_wf (wf_push hwf hi hc))),
    sortE_filter _ (nodupKeys_sublist (List.filter_sublist _)
      (nodupKeys_of_wf hwf)),
    List.filter_filter, List.filter_filter, List.filter_append]
  rw [show [e].filter
      (fun x => decide (x.txnDate < d) && liveIn o i x) = [] by
    simp [show ¬ e.txnDate < d by omega], List.append_nil]

theorem softDelete_entries (s : LedgerState) (k : Nat) :
    (softDelete s k).entries = s.entries.map
      (fun e => if e.id == k then { e with deleted := true } else e) := rfl

theorem softDelete_fresh (s : LedgerState) (k : Nat) :
    (softDelete s k).fresh = s.fresh := rfl

theorem wf_softDelete (s : LedgerState) (k : Nat)
    (hwf : WFentries s.entries s.fresh) :
    WFentries (softDelete s k).entries (softDelete s k).fresh := by
  rw [softDelete_entries, softDelete_fresh]
  apply wf_map _ _ hwf
  intro e _
  by_cases hk : e.id == k <;> simp [hk]

/-- Tombstoning row `k` removes exactly that row from live views. -/
theorem softDelete_filterLive (s : LedgerState) (k o i : Nat) :
    (softDelete s k).entries.filter (liveIn o i)
      = s.entries.filter (fun e => liveIn o i e && !(e.id == k)) := by
  rw [softDelete_entries, List.filter_map]
  have h1 : s.entries.filter
      (liveIn o i ∘ fun e => if e.id == k then { e with deleted := true }
        else e)
      = s.entries.filter (fun e => liveIn o i e && !(e.id == k)) := by
    apply List.filter_congr
    intro e _
    simp only [Function.comp_apply]
    by_cases hk : (e.id == k) = true
    · rw [if_pos hk, hk]
      simp [liveIn]
    · rw [if_neg hk]
      have hk2 : (e.id == k) = false := by simpa using hk
      rw [hk2]
      simp
  rw [h1]
  rw [List.map_congr_left (fun e he => ?_), List.map_id']
  have hm := (List.mem_filter.mp he).2
  rw [Bool.and_eq_true] at hm
  rw [if_neg (by simpa using hm.2)]

/-- Tombstoning a row dated at or after the pivot leaves the pre-pivot
rows of every partition unchanged. -/
theorem softDelete_olderPart (s : LedgerState) (k o i d : Nat)
    (hwf : WFentries s.entries s.fresh) {tgt : Entry}
    (htgt : tgt ∈ s.entries) (hid : tgt.id = k) (hdate : d ≤ tgt.txnDate) :
    olderPart (softDelete s k) o i d = olderPart s o i d := by
  unfold olderPart sortedLive
  rw [softDelete_filterLive,
    sortE_filter _ (nodupKeys_sublist (List.filter_sublist _)
      (nodupKeys_of_wf hwf)),
    sortE_filter _ (nodupKeys_sublist (List.filter_sublist _)
      (nodupKeys_of_wf hwf)),
    List.filter_filter, List.filter_filter]
  congr 1
  apply List.filter_congr
  intro e he
  by_cases hk : e.id == k
  · have he2 : e = tgt :=
      List.inj_on_of_nodup_map hwf.1 he htgt (by rw [hid]; simpa using hk)
    subst he2
    simp [show ¬ e.txnDate < d by omega]
  · simp [hk]

/-- Tombstoning a row of one partition does not affect other partitions. -/
theorem softDelete_sortedLive_other (s : LedgerState) (k o i : Nat)
    (hwf : WFentries s.entries s.fresh) {tgt : Entry}
    (htgt : tgt ∈ s.entries) (hid : tgt.id = k)
    (hne : liveIn o i tgt = false) :
    sortedLive (softDelete s k) o i = sortedLive s o i := by
  unfold sortedLive
  rw [softDelete_filterLive]
  congr 1
  apply List.filter_congr
  intro e he
  by_cases hk : e.id == k
  · have he2 : e = tgt :=
      List.inj_on_of_nodup_map hwf.1 he htgt (by rw [hid]; simpa using hk)
    subst he2
    simp [hne]
  · simp [hk]

theorem findLive_spec {s : LedgerState} {k : Nat} {e : Entry}
    (h : findLive s k = some e) :
    e ∈ s.entries ∧ e.id = k ∧ e.deleted = false := by
  refine ⟨List.mem_of_find?_eq_some h, ?_, ?_⟩
  · have := List.find?_some h
    rw [Bool.and_eq_true] at this
    simpa using this.1
  · have := List.find?_some h
    rw [Bool.and_eq_true] at this
    simpa using this.2

theorem recalc_olderPart_any (s : LedgerState) (o i d o' i' : Nat)
    (hwf : WFentries s.entries s.fresh) :
    olderPart (recalculateForward s o i d).1 o' i' d
      = olderPart s o' i' d := by
  by_cases hp : o' = o ∧ i' = i
  · obtain ⟨rfl, rfl⟩ := hp
    exact recalc_olderPart s o' i' d hwf
  · unfold olderPart
    rw [recalc_sortedLive_other s o i d o' i' hwf hp]

theorem massDelete_entries (s : LedgerState) (h : HistRecord) :
    (rollbackMassDelete s h).entries = s.entries.map (fun e =>
      if e.orgId == h.orgId && e.itemId == h.itemId && !e.deleted &&
         decide (h.snapshotFromDate ≤ e.txnDate) then
        { e with deleted := true }
      else e) := rfl

theorem wf_massDelete (s : LedgerState) (h : HistRecord)
    (hwf : WFentries s.entries s.fresh) :
    WFentries (rollbackMassDelete s h).entries
      (rollbackMassDelete s h).fresh := by
  rw [massDelete_entries]
  apply wf_map _ _ hwf
  intro e _
  exact ⟨by split <;> rfl, by split <;> rfl⟩

/-- The rollback mass tombstone removes exactly the live partition rows
dated at or after the snapshot date from live views. -/
theorem massDelete_filterLive (s : LedgerState) (h : HistRecord)
    (o i : Nat) :
    (rollbackMassDelete s h).entries.filter (liveIn o i)
      = s.entries.filter (fun e => liveIn o i e &&
          !(e.orgId == h.orgId && e.itemId == h.itemId && !e.deleted &&
            decide (h.snapshotFromDate ≤ e.txnDate))) := by
  rw [massDelete_entries, List.filter_map]
  have h1 : s.entries.filter
      (liveIn o i ∘ fun e =>
        if e.orgId == h.orgId && e.itemId == h.itemId && !e.deleted &&
           decide (h.snapshotFromDate ≤ e.txnDate) then
          { e with deleted := true }
        else e)
      = s.entries.filter (fun e => liveIn o i e &&
          !(e.orgId == h.orgId && e.itemId == h.itemId && !e.deleted &&
            decide (h.snapshotFromDate ≤ e.txnDate))) := by
    apply List.filter_congr
    intro e _
    simp only [Function.comp_apply]
    by_cases hc : (e.orgId == h.orgId && e.itemId == h.itemId && !e.deleted &&
        decide (h.snapshotFromDate ≤ e.txnDate)) = true
    · rw [if_pos hc, hc]
      simp [liveIn]
    · rw [if_neg hc]
      have hc2 : (e.orgId == h.orgId && e.itemId == h.itemId && !e.deleted &&
          decide (h.snapshotFromDate ≤ e.txnDate)) = false := by
        simpa using hc
      rw [hc2]
      simp
  rw [h1]
  rw [List.map_congr_left (fun e he => ?_), List.map_id']
  have hm := (List.mem_filter.mp he).2
  rw [Bool.and_eq_true] at hm
  have hcond : (e.orgId == h.orgId && e.itemId == h.itemId && !e.deleted &&
      decide (h.snapshotFromDate ≤ e.txnDate)) = false := by
    have hx := hm.2
    rwa [Bool.not_eq_true'] at hx
  rw [if_neg (by simp [hcond])]

theorem massDelete_olderPart (s : LedgerState) (h : HistRecord) (o i : Nat)
    (hwf : WFentries s.entries s.fresh) :
    olderPart (rollbackMassDelete s h) o i h.snapshotFromDate
      = olderPart s o i h.snapshotFromDate := by
  unfold olderPart sortedLive
  rw [massDelete_filterLive,
    sortE_filter _ (nodupKeys_sublist (List.filter_sublist _)
      (nodupKeys_of_wf hwf)),
    sortE_filter _ (nodupKeys_sublist (List.filter_sublist _)
      (nodupKeys_of_wf hwf)),
    List.filter_filter, List.filter_filter]
  congr 1
  apply List.filter_congr
  intro e _
  by_cases hd : e.txnDate < h.snapshotFromDate
  · have hle : decide (h.snapshotFromDate ≤ e.txnDate) = false := by
      simp only [decide_eq_false_iff_not]
      omega
    simp [hd, hle]
  · simp [hd]

theorem massDelete_sortedLive_other (s : LedgerState) (h : HistRecord)
    (o i : Nat) (hne : ¬ (o = h.orgId ∧ i = h.itemId)) :
    sortedLive (rollbackMassDelete s h) o i = sortedLive s o i := by
  unfold sortedLive
  rw [massDelete_filterLive]
  congr 1
  apply List.filter_congr
  intro e _
  by_cases hl : liveIn o i e = true
  · obtain ⟨h1, h2, _⟩ := liveIn_iff.mp hl
    have hcf : (e.orgId == h.orgId && e.itemId == h.itemId && !e.deleted &&
        decide (h.snapshotFromDate ≤ e.txnDate)) = false := by
      by_cases ha : (e.orgId == h.orgId) = true
      · by_cases hbq : (e.itemId == h.itemId) = true
        · exact absurd ⟨by have := eq_of_beq ha; omega,
            by have := eq_of_beq hbq; omega⟩ hne
        · have : (e.itemId == h.itemId) = false := by simpa using hbq
          simp [this]
      · have : (e.orgId == h.orgId) = false := by simpa using ha
        simp [this]
    simp [hcf]
  · have hlf : liveIn o i e = false := by
      rw [Bool.eq_false_iff]
      exact hl
    simp [hlf]

/-- Every branch of the restore inserts one fresh live row of the
partition, dated by the snapshot item. -/
theorem restoreEntry_shape (o i : Nat) (st : LedgerState) (it : SnapItem) :
    (restoreEntry o i st it).id = st.fresh ∧
    (restoreEntry o i st it).createdAt = st.fresh ∧
    (restoreEntry o i st it).orgId = o ∧
    (restoreEntry o i st it).itemId = i ∧
    (restoreEntry o i st it).txnDate = it.txnDate ∧
    (restoreEntry o i st it).deleted = false := by
  unfold restoreEntry
  by_cases h1 : (it.kind == "mutation") = true
  · rw [if_pos h1]
    cases hf : st.entries.find? (fun x => x.id == it.entryId) with
    | none => exact ⟨rfl, rfl, rfl, rfl, rfl, rfl⟩
    | some original => exact ⟨rfl, rfl, rfl, rfl, rfl, rfl⟩
  · rw [if_neg h1]
    by_cases h2 : (it.kind == "opname") = true
    · rw [if_pos h2]
      cases hf : st.entries.find? (fun x => x.id == it.entryId) with
      | none => exact ⟨rfl, rfl, rfl, rfl, rfl, rfl⟩
      | some original => exact ⟨rfl, rfl, rfl, rfl, rfl, rfl⟩
    · rw [if_neg h2]
      exact ⟨rfl, rfl, rfl, rfl, rfl, rfl⟩

/-- The rollback restore loop: well-formedness survives, the pre-pivot
rows survive untouched, and other partitions are untouched. -/
theorem restore_fold (o i d : Nat) :
    ∀ (items : List SnapItem) (st : LedgerState),
    (∀ it ∈ items, d ≤ it.txnDate) →
    WFentries st.entries st.fresh →
    WFentries (items.foldl (restoreOne o i) st).entries
        (items.foldl (restoreOne o i) st).fresh ∧
      olderPart (items.foldl (restoreOne o i) st) o i d
        = olderPart st o i d ∧
      (∀ o' i', ¬ (o' = o ∧ i' = i) →
        sortedLive (items.foldl (restoreOne o i) st) o' i'
          = sortedLive st o' i') := by
  intro items
  induction items with
  | nil =>
    intro st _ hwf
    exact ⟨hwf, rfl, fun _ _ _ => rfl⟩
  | cons it rest ih =>
    intro st hd hwf
    obtain ⟨hei, hec, heo, heI, het, _⟩ := restoreEntry_shape o i st it
    rw [List.foldl_cons,
      show restoreOne o i st it = pushEntry st (restoreEntry o i st it)
        from rfl]
    have hwf1 : WFentries (pushEntry st (restoreEntry o i st it)).entries
        (pushEntry st (restoreEntry o i st it)).fresh :=
      wf_push hwf hei hec
    obtain ⟨ih1, ih2, ih3⟩ :=
      ih (pushEntry st (restoreEntry o i st it))
        (fun x hx => hd x (List.mem_cons_of_mem it hx)) hwf1
    refine ⟨ih1, ?_, ?_⟩
    · rw [ih2, push_olderPart st (restoreEntry o i st it) o i d hwf hei hec
        (by rw [het]; exact hd it (List.mem_cons_self it rest))]
    · intro o' i' hne
      rw [ih3 o' i' hne,
        push_sortedLive_other st (restoreEntry o i st it) o' i'
          (liveIn_false_of_ne _ _ _ _ _ heo heI hne)]

theorem rollbackSource_items {h : HistRecord} {items : List SnapItem}
    (hs : rollbackSource h = some items) :
    ∀ it ∈ items, it ∈ histItems h := by
  unfold rollbackSource at hs
  unfold histItems
  split at hs
  · intro it hit
    rw [List.mem_append]
    right
    rw [hs]
    simpa using hit
  · intro it hit
    rw [List.mem_append]
    left
    rw [hs]
    simpa using hit

/-! ## Balance preservation, operation by operation -/

/-- Inserting one fresh row of a partition and recalculating from its
date keeps the whole ledger balanced (covers create and count). -/
theorem balanced_insert_recalc (s : LedgerState) (e : Entry) (a : String)
    (o i : Nat) (hwf : WF s) (hb : Balanced s) (hi : e.id = s.fresh)
    (hc : e.createdAt = s.fresh) (ho : e.orgId = o) (hit : e.itemId = i) :
    Balanced (recalculateForward (createHistory (pushEntry s e) e a)
      o i e.txnDate).1 := by
  intro o' i'
  have hwf2 : WFentries (createHistory (pushEntry s e) e a).entries
      (createHistory (pushEntry s e) e a).fresh :=
    wf_hist _ _ _ (wf_push hwf.1 hi hc)
  by_cases hp : o' = o ∧ i' = i
  · obtain ⟨rfl, rfl⟩ := hp
    refine recalc_balanced _ _ _ _ hwf2 ?_
    show chainOk 0 (olderPart (pushEntry s e) o' i' e.txnDate) = true
    rw [push_olderPart s e o' i' e.txnDate hwf.1 hi hc (le_refl _)]
    exact balanced_older _ (hb o' i')
  · unfold BalancedPartition
    rw [recalc_sortedLive_other _ _ _ _ _ _ hwf2 hp]
    show chainOk 0 (sortedLive (pushEntry s e) o' i') = true
    rw [push_sortedLive_other s e o' i'
      (liveIn_false_of_ne _ _ _ _ _ ho hit hp)]
    exact hb o' i'

theorem balanced_createOk (s : LedgerState) (req : CreateReq)
    (hwf : WF s) (hb : Balanced s) :
    Balanced (createTransactionOk s req) :=
  balanced_insert_recalc s (createEntryOf s req) "CREATE" req.orgId
    req.itemId hwf hb rfl rfl rfl rfl

theorem balanced_opnameOk (s : LedgerState) (req : OpnameReq)
    (hwf : WF s) (hb : Balanced s) :
    Balanced (createOpnameOk s req) :=
  balanced_insert_recalc s (opnameEntryOf s req) "OPNAME" req.orgId
    req.itemId hwf hb rfl rfl rfl rfl

theorem balanced_mutationOk (s : LedgerState) (req : MutReq)
    (hwf : WF s) (hb : Balanced s) :
    Balanced (createMutationOk s req) := by
  simp only [createMutationOk]
  have hwf0 : WFentries s.entries (s.fresh + 1) :=
    wf_mono (Nat.le_succ _) hwf.1
  have hwf1 : WFentries
      (pushEntry { s with fresh := s.fresh + 1 } (mutSrcEntry s req)).entries
      (pushEntry { s with fresh := s.fresh + 1 } (mutSrcEntry s req)).fresh :=
    @wf_push { s with fresh := s.fresh + 1 } _ hwf0 rfl rfl
  have hwf2 : WFentries
      (pushEntry (pushEntry { s with fresh := s.fresh + 1 }
        (mutSrcEntry s req)) (mutDstEntry s req)).entries
      (pushEntry (pushEntry { s with fresh := s.fresh + 1 }
        (mutSrcEntry s req)) (mutDstEntry s req)).fresh :=
    wf_push hwf1 rfl rfl
  have hwf4 : WFentries
      (createHistory (createHistory (pushEntry (pushEntry
          { s with fresh := s.fresh + 1 } (mutSrcEntry s req))
          (mutDstEntry s req)) (mutSrcEntry s req) "MUTATION_OUT")
        (mutDstEntry s req) "MUTATION_IN").entries
      (createHistory (createHistory (pushEntry (pushEntry
          { s with fresh := s.fresh + 1 } (mutSrcEntry s req))
          (mutDstEntry s req)) (mutSrcEntry s req) "MUTATION_OUT")
        (mutDstEntry s req) "MUTATION_IN").fresh :=
    wf_hist _ _ _ (wf_hist _ _ _ hwf2)
  have holder : ∀ o' i',
      chainOk 0 (olderPart (createHistory (createHistory (pushEntry
        (pushEntry { s with fresh := s.fresh + 1 } (mutSrcEntry s req))
        (mutDstEntry s req)) (mutSrcEntry s req) "MUTATION_OUT")
        (mutDstEntry s req) "MUTATION_IN") o' i' req.txnDate) = true := by
    intro o' i'
    rw [olderPart_hist, olderPart_hist,
      push_olderPart _ (mutDstEntry s req) o' i' req.txnDate hwf1 rfl rfl
        (le_refl _),
      push_olderPart { s with fresh := s.fresh + 1 } (mutSrcEntry s req)
        o' i' req.txnDate hwf0 rfl rfl (le_refl _)]
    exact balanced_older _ (hb o' i')
  intro o' i'
  by_cases hpTo : o' = req.toOrgId ∧ i' = req.itemId
  · obtain ⟨rfl, rfl⟩ := hpTo
    refine recalc_balanced _ _ _ _ (wf_recalc _ _ _ _ hwf4) ?_
    rw [recalc_olderPart_any _ _ _ _ _ _ hwf4]
    exact holder _ _
  · unfold BalancedPartition
    rw [recalc_sortedLive_other _ _ _ _ _ _ (wf_recalc _ _ _ _ hwf4) hpTo]
    by_cases hpFrom : o' = req.fromOrgId ∧ i' = req.itemId
    · obtain ⟨rfl, rfl⟩ := hpFrom
      exact recalc_balanced _ _ _ _ hwf4 (holder _ _)
    · rw [recalc_sortedLive_other _ _ _ _ _ _ hwf4 hpFrom,
        sortedLive_hist, sortedLive_hist,
        push_sortedLive_other _ (mutDstEntry s req) o' i'
          (liveIn_false_of_ne _ _ _ _ _ rfl rfl hpTo),
        push_sortedLive_other { s with fresh := s.fresh + 1 }
          (mutSrcEntry s req) o' i'
          (liveIn_false_of_ne _ _ _ _ _ rfl rfl hpFrom)]
      exact hb o' i'

theorem balanced_updateOk (s : LedgerState) {existing : Entry}
    (req : UpdateReq) (hwf : WF s) (hb : Balanced s)
    (hmem : existing ∈ s.entries) :
    Balanced (updateOk s existing req) := by
  simp only [updateOk]
  have hwfh : WFentries (createHistory s existing "UPDATE_BEFORE").entries
      (createHistory s existing "UPDATE_BEFORE").fresh :=
    wf_hist _ _ _ hwf.1
  have hwf1 : WFentries
      (softDelete (createHistory s existing "UPDATE_BEFORE")
        existing.id).entries
      (softDelete (createHistory s existing "UPDATE_BEFORE")
        existing.id).fresh :=
    wf_softDelete _ _ hwfh
  have hwf2 : WFentries
      (pushEntry (softDelete (createHistory s existing "UPDATE_BEFORE")
        existing.id) (updateNewEntry (softDelete (createHistory s existing
        "UPDATE_BEFORE") existing.id) existing req)).entries
      (pushEntry (softDelete (createHistory s existing "UPDATE_BEFORE")
        existing.id) (updateNewEntry (softDelete (createHistory s existing
        "UPDATE_BEFORE") existing.id) existing req)).fresh :=
    wf_push hwf1 rfl rfl
  have hwf3 := wf_hist _ (updateNewEntry (softDelete (createHistory s
    existing "UPDATE_BEFORE") existing.id) existing req) "UPDATE_AFTER" hwf2
  intro o' i'
  by_cases hp : o' = existing.orgId ∧ i' = existing.itemId
  · obtain ⟨rfl, rfl⟩ := hp
    refine recalc_balanced _ _ _ _ hwf3 ?_
    rw [olderPart_hist,
      push_olderPart (softDelete (createHistory s existing "UPDATE_BEFORE")
          existing.id)
        (updateNewEntry (softDelete (createHistory s existing
          "UPDATE_BEFORE") existing.id) existing req)
        existing.orgId existing.itemId (min existing.txnDate req.txnDate)
        hwf1 rfl rfl (min_le_right _ _),
      softDelete_olderPart (createHistory s existing "UPDATE_BEFORE")
        existing.id existing.orgId existing.itemId
        (min existing.txnDate req.txnDate) hwfh hmem rfl (min_le_left _ _),
      olderPart_hist]
    exact balanced_older _ (hb _ _)
  · unfold BalancedPartition
    rw [recalc_sortedLive_other _ _ _ _ _ _ hwf3 hp, sortedLive_hist,
      push_sortedLive_other (softDelete (createHistory s existing
          "UPDATE_BEFORE") existing.id)
        (updateNewEntry (softDelete (createHistory s existing
          "UPDATE_BEFORE") existing.id) existing req) o' i'
        (liveIn_false_of_ne _ _ _ _ _ rfl rfl hp),
      softDelete_sortedLive_other (createHistory s existing "UPDATE_BEFORE")
        existing.id o' i' hwfh hmem rfl
        (liveIn_false_of_ne _ _ _ _ _ rfl rfl hp),
      sortedLive_hist]
    exact hb o' i'

theorem balanced_opnameUpdateOk (s : LedgerState) {existing : Entry}
    (req : UpdateReq) (hwf : WF s) (hb : Balanced s)
    (hmem : existing ∈ s.entries)
    (hben : req.txnDate ≤ existing.txnDate) :
    Balanced (opnameUpdateOk (createHistory s existing "UPDATE_BEFORE")
      existing req) := by
  simp only [opnameUpdateOk]
  have hwfh : WFentries (createHistory s existing "UPDATE_BEFORE").entries
      (createHistory s existing "UPDATE_BEFORE").fresh :=
    wf_hist _ _ _ hwf.1
  have hwf1 : WFentries
      (softDelete (createHistory s existing "UPDATE_BEFORE")
        existing.id).entries
      (softDelete (createHistory s existing "UPDATE_BEFORE")
        existing.id).fresh :=
    wf_softDelete _ _ hwfh
  have hwf2 : WFentries
      (pushEntry (softDelete (createHistory s existing "UPDATE_BEFORE")
        existing.id) (opnameNewEntry (createHistory s existing
        "UPDATE_BEFORE") existing req)).entries
      (pushEntry (softDelete (createHistory s existing "UPDATE_BEFORE")
        existing.id) (opnameNewEntry (createHistory s existing
        "UPDATE_BEFORE") existing req)).fresh :=
    wf_push hwf1 rfl rfl
  intro o' i'
  by_cases hp : o' = existing.orgId ∧ i' = existing.itemId
  · obtain ⟨rfl, rfl⟩ := hp
    refine recalc_balanced _ _ _ _ hwf2 ?_
    rw [push_olderPart (softDelete (createHistory s existing
          "UPDATE_BEFORE") existing.id)
        (opnameNewEntry (createHistory s existing "UPDATE_BEFORE")
          existing req)
        existing.orgId existing.itemId req.txnDate hwf1 rfl rfl (le_refl _),
      softDelete_olderPart (createHistory s existing "UPDATE_BEFORE")
        existing.id existing.orgId existing.itemId req.txnDate hwfh hmem rfl
        hben,
      olderPart_hist]
    exact balanced_older _ (hb _ _)
  · unfold BalancedPartition
    rw [recalc_sortedLive_other _ _ _ _ _ _ hwf2 hp,
      push_sortedLive_other (softDelete (createHistory s existing
          "UPDATE_BEFORE") existing.id)
        (opnameNewEntry (createHistory s existing "UPDATE_BEFORE")
          existing req) o' i'
        (liveIn_false_of_ne _ _ _ _ _ rfl rfl hp),
      softDelete_sortedLive_other (createHistory s existing "UPDATE_BEFORE")
        existing.id o' i' hwfh hmem rfl
        (liveIn_false_of_ne _ _ _ _ _ rfl rfl hp),
      sortedLive_hist]
    exact hb o' i'

theorem balanced_deleteOk (s : LedgerState) {inv : Entry}
    (hwf : WF s) (hb : Balanced s) (hmem : inv ∈ s.entries) :
    Balanced (deleteOk s inv) := by
  simp only [deleteOk]
  have hwfh : WFentries (createHistory s inv "DELETE_BEFORE").entries
      (createHistory s inv "DELETE_BEFORE").fresh :=
    wf_hist _ _ _ hwf.1
  have hwf1 : WFentries
      (softDelete (createHistory s inv "DELETE_BEFORE") inv.id).entries
      (softDelete (createHistory s inv "DELETE_BEFORE") inv.id).fresh :=
    wf_softDelete _ _ hwfh
  intro o' i'
  by_cases hp : o' = inv.orgId ∧ i' = inv.itemId
  · obtain ⟨rfl, rfl⟩ := hp
    refine recalc_balanced _ _ _ _ hwf1 ?_
    rw [softDelete_olderPart (createHistory s inv "DELETE_BEFORE") inv.id
        inv.orgId inv.itemId inv.txnDate hwfh hmem rfl (le_refl _),
      olderPart_hist]
    exact balanced_older _ (hb _ _)
  · unfold BalancedPartition
    rw [recalc_sortedLive_other _ _ _ _ _ _ hwf1 hp,
      softDelete_sortedLive_other (createHistory s inv "DELETE_BEFORE")
        inv.id o' i' hwfh hmem rfl
        (liveIn_false_of_ne _ _ _ _ _ rfl rfl hp),
      sortedLive_hist]
    exact hb o' i'

theorem balanced_rollbackOk (s : LedgerState) (h : HistRecord)
    (items : List SnapItem) (hwf : WF s) (hb : Balanced s)
    (hd : ∀ it ∈ items, h.snapshotFromDate ≤ it.txnDate) :
    Balanced (rollbackOk s h items) := by
  simp only [rollbackOk]
  obtain ⟨hwf2, holder2, hother2⟩ :=
    restore_fold h.orgId h.itemId h.snapshotFromDate items
      (rollbackMassDelete s h) hd (wf_massDelete s h hwf.1)
  intro o' i'
  show chainOk 0 (sortedLive (recalculateForward
    (items.foldl (restoreOne h.orgId h.itemId) (rollbackMassDelete s h))
    h.orgId h.itemId h.snapshotFromDate).1 o' i') = true
  by_cases hp : o' = h.orgId ∧ i' = h.itemId
  · obtain ⟨rfl, rfl⟩ := hp
    refine recalc_balanced _ _ _ _ hwf2 ?_
    rw [holder2, massDelete_olderPart _ _ _ _ hwf.1]
    exact balanced_older _ (hb _ _)
  · rw [recalc_sortedLive_other _ _ _ _ _ _ hwf2 hp, hother2 o' i' hp,
      massDelete_sortedLive_other _ _ _ _ hp]
    exact hb o' i'

/-- The one exception the code has: an update that moves a count row to a
LATER date recalculates only from the new date.  `benign` excludes that
case and nothing else. -/
def benign (s : LedgerState) : Op → Prop
  | .update req => ∀ e, findLive s req.inventoryId = some e →
      e.kind = "opname" → req.txnDate ≤ e.txnDate
  | _ => True

/-- Balance preservation for every committed benign operation. -/
theorem balanced_step {s : LedgerState} {op : Op} {t : LedgerState}
    (hwf : WF s) (hb : Balanced s) (hben : benign s op)
    (h : applyOp op s = .ok t) : Balanced t := by
  cases op with
  | create req =>
    simp only [applyOp, createTransaction] at h
    split at h
    · cases h
    split at h
    · cases h
    split at h
    · cases h
    split at h
    · cases h
    split at h
    · cases h
    injection h with h2
    subst h2
    exact balanced_createOk s req hwf hb
  | mutate req =>
    simp only [applyOp, createMutation] at h
    split at h
    · cases h
    injection h with h2
    subst h2
    exact balanced_mutationOk s req hwf hb
  | opname req =>
    simp only [applyOp, createOpname] at h
    injection h with h2
    subst h2
    exact balanced_opnameOk s req hwf hb
  | update req =>
    simp only [applyOp, updateTransaction] at h
    cases hfl : findLive s req.inventoryId with
    | none =>
      simp only [hfl] at h
      cases h
    | some existing =>
      simp only [hfl] at h
      have hmem := (findLive_spec hfl).1
      by_cases hk : (existing.kind == "opname") = true
      · rw [if_pos hk] at h
        injection h with h2
        subst h2
        exact balanced_opnameUpdateOk s req hwf hb hmem
          (hben existing hfl (eq_of_beq hk))
      · rw [if_neg hk] at h
        injection h with h2
        subst h2
        exact balanced_updateOk s req hwf hb hmem
  | delete k =>
    simp only [applyOp, deleteTransaction] at h
    cases hfl : findLive s k with
    | none =>
      simp only [hfl] at h
      cases h
    | some inv =>
      simp only [hfl] at h
      injection h with h2
      subst h2
      exact balanced_deleteOk s hwf hb (findLive_spec hfl).1
  | rollback hid =>
    simp only [applyOp, rollbackTransaction] at h
    cases hfh : s.history.find? (fun x => x.id == hid) with
    | none =>
      simp only [hfh] at h
      cases h
    | some hr =>
      simp only [hfh] at h
      split at h
      · cases h
      cases hsrc : rollbackSource hr with
      | none =>
        simp only [hsrc] at h
        cases h
      | some items =>
        simp only [hsrc] at h
        injection h with h2
        subst h2
        refine balanced_rollbackOk s hr items hwf hb ?_
        intro it hit
        exact hwf.2 hr (List.mem_of_find?_eq_some hfh) it
          (rollbackSource_items hsrc it hit)

/-! ## History bookkeeping and further helpers for the claims -/

/-- The sequence of history actions recorded in the store, oldest first. -/
def histActions (s : LedgerState) : List String :=
  s.history.map HistRecord.action

theorem histActions_hist (s : LedgerState) (t : Entry) (a : String) :
    histActions (createHistory s t a) = histActions s ++ [a] := by
  unfold histActions createHistory
  simp

theorem histActions_recalc (s : LedgerState) (o i d : Nat) :
    histActions (recalculateForward s o i d).1 = histActions s := rfl

theorem histActions_push (s : LedgerState) (e : Entry) :
    histActions (pushEntry s e) = histActions s := rfl

theorem histActions_softDelete (s : LedgerState) (k : Nat) :
    histActions (softDelete s k) = histActions s := rfl

theorem histActions_restore_fold (o i : Nat) (items : List SnapItem) :
    ∀ st : LedgerState,
      histActions (items.foldl (restoreOne o i) st) = histActions st := by
  induction items with
  | nil => intro st; rfl
  | cons it rest ih =>
    intro st
    rw [List.foldl_cons,
      show restoreOne o i st it = pushEntry st (restoreEntry o i st it)
        from rfl]
    rw [ih (pushEntry st (restoreEntry o i st it)), histActions_push]

theorem histActions_rollbackOk (s : LedgerState) (h : HistRecord)
    (items : List SnapItem) :
    histActions (rollbackOk s h items) = histActions s ++ ["ROLLBACK"] := by
  simp only [rollbackOk]
  unfold histActions
  simp only [List.map_append]
  rw [show ((recalculateForward (items.foldl (restoreOne h.orgId h.itemId)
      (rollbackMassDelete s h)) h.orgId h.itemId h.snapshotFromDate).1).history
      = (items.foldl (restoreOne h.orgId h.itemId)
          (rollbackMassDelete s h)).history from rfl]
  have h2 := histActions_restore_fold h.orgId h.itemId items
    (rollbackMassDelete s h)
  unfold histActions at h2
  rw [h2]
  rfl

/-- The rows strictly older than a deleted row survive a delete verbatim. -/
theorem deleteOk_frame (s : LedgerState) {inv : Entry} (hwf : WF s)
    (hmem : inv ∈ s.entries) :
    ∀ e ∈ s.entries, e.txnDate < inv.txnDate →
      e ∈ (deleteOk s inv).entries := by
  intro e he hdate
  simp only [deleteOk]
  rw [recalc_fst_entries]
  have hwfh := wf_hist s inv "DELETE_BEFORE" hwf.1
  have hwf1 := wf_softDelete (createHistory s inv "DELETE_BEFORE") inv.id
    hwfh
  have hg : (if e.id == inv.id then { e with deleted := true } else e)
      = e := by
    rw [if_neg ?_]
    intro hEq
    have he2 : e = inv :=
      List.inj_on_of_nodup_map hwf.1.1 he hmem (by simpa using hEq)
    rw [he2] at hdate
    omega
  have he1 : e ∈ (softDelete (createHistory s inv "DELETE_BEFORE")
      inv.id).entries := by
    rw [softDelete_entries]
    rw [← hg]
    exact List.mem_map_of_mem _ he
  have hg2 : updAssoc (recalcWrites (softDelete (createHistory s inv
      "DELETE_BEFORE") inv.id) inv.orgId inv.itemId inv.txnDate) e = e := by
    apply updAssoc_not_mem
    intro u hu hEq
    obtain ⟨t', ht', hcore⟩ := recalcFold_mem_core _ _ u
      ((recalcFold_writes_sublist _ _).subset hu)
    obtain ⟨⟨hts, _⟩, hge⟩ := mem_liveTailFrom.mp ht'
    have ht2 : t' = e :=
      List.inj_on_of_nodup_map hwf1.1 hts he1 (by rw [hcore.1, hEq])
    rw [ht2] at hge
    omega
  rw [← hg2]
  exact List.mem_map_of_mem _ he1

/-- The state right before the two recalculation passes of a mutation. -/
def mutState4 (s : LedgerState) (req : MutReq) : LedgerState :=
  createHistory (createHistory (pushEntry (pushEntry
    { s with fresh := s.fresh + 1 } (mutSrcEntry s req))
    (mutDstEntry s req)) (mutSrcEntry s req) "MUTATION_OUT")
    (mutDstEntry s req) "MUTATION_IN"

theorem createMutationOk_eq (s : LedgerState) (req : MutReq) :
    createMutationOk s req =
      (recalculateForward (recalculateForward (mutState4 s req)
        req.fromOrgId req.itemId req.txnDate).1
        req.toOrgId req.itemId req.txnDate).1 := rfl

theorem wf_mutState4 (s : LedgerState) (req : MutReq)
    (hwf : WFentries s.entries s.fresh) :
    WFentries (mutState4 s req).entries (mutState4 s req).fresh :=
  wf_hist _ _ _ (wf_hist _ _ _ (wf_push
    (@wf_push { s with fresh := s.fresh + 1 } _
      (wf_mono (Nat.le_succ _) hwf) rfl rfl) rfl rfl))

theorem sameCore_trans {a b c : Entry} (h1 : sameCore a b)
    (h2 : sameCore b c) : sameCore a c := by
  obtain ⟨a1, a2, a3, a4, a5, a6, a7, a8, a9, a10, a11⟩ := h1
  obtain ⟨b1, b2, b3, b4, b5, b6, b7, b8, b9, b10, b11⟩ := h2
  refine ⟨a1.trans b1, a2.trans b2, a3.trans b3, a4.trans b4, a5.trans b5,
    a6.trans b6, a7.trans b7, a8.trans b8, a9.trans b9, a10.trans b10, ?_⟩
  intro hne
  exact (a11 hne).trans (b11 (a6 ▸ hne))

/-- Filtering by a core-respecting predicate commutes with a
recalculation pass. -/
theorem recalc_filter_core (X : LedgerState) (o i d : Nat)
    (hwf : WFentries X.entries X.fresh) (p : Entry → Bool)
    (hp : ∀ a b : Entry, sameCore a b → p a = p b) :
    (recalculateForward X o i d).1.entries.filter p
      = (X.entries.filter p).map (updAssoc (recalcWrites X o i d)) := by
  rw [recalc_fst_entries, List.filter_map]
  congr 1
  apply List.filter_congr
  intro e he
  exact (hp e _ (updAssoc_recalc_core X o i d hwf.1 he)).symm

/-- Decidability bridge for the balance invariant: partitions hosting no
row are trivially balanced. -/
theorem balanced_of_balancedB {s : LedgerState} (h : balancedB s = true) :
    Balanced s := by
  intro o i
  unfold BalancedPartition
  rcases hE : s.entries.filter (liveIn o i) with _ | ⟨e, rest⟩
  · unfold sortedLive
    rw [hE]
    rfl
  · have he : e ∈ s.entries.filter (liveIn o i) := by
      rw [hE]
      exact List.mem_cons_self e rest
    have he2 := List.mem_filter.mp he
    obtain ⟨ho, hi, _⟩ := liveIn_iff.mp he2.2
    have hx := List.all_eq_true.mp h e he2.1
    rw [ho, hi] at hx
    exact hx

/-! ## Concrete scenario states -/

def c1req1 : CreateReq :=
  { orgId := 1, itemId := 1, txnDate := 1, amount := 10,
    type := "penerimaan", refId := none }

def c1s1 : LedgerState := (createTransaction init c1req1).toOption.getD init

def c1reqOp : OpnameReq :=
  { orgId := 1, itemId := 1, physicalQty := 50, txnDate := 2, refId := none }

def c1s2 : LedgerState := (createOpname c1s1 c1reqOp).toOption.getD init

def c1req3 : CreateReq :=
  { orgId := 1, itemId := 1, txnDate := 3, amount := 5,
    type := "penerimaan", refId := none }

def c1s3 : LedgerState := (createTransaction c1s2 c1req3).toOption.getD init

def c1upd : UpdateReq := { inventoryId := 2, txnDate := 4, amount := 7 }

def c1s4 : LedgerState := (updateTransaction c1s3 c1upd).toOption.getD init

/-! ## The claims -/

/-- **C3.** For every create (delta-entry) request: it fails with a
validation error when `amount = 0`, when the kind is not one of
`stok_awal`/`penerimaan`/`pemakaian`, when the kind is `penerimaan`
(receipt) with a negative amount, or when the kind is `pemakaian` (issue)
with a positive amount; it fails with a conflict error when the kind is
`stok_awal` and a live first-stock row already exists in the partition;
on any failure the transaction rolls back, committing no row and no
history record; with none of these conditions present (and the store
never failing in the model) the create succeeds. -/
theorem c3_create_validation (s : LedgerState) (req : CreateReq) :
    (req.amount = 0 → createTransaction s req = .error .validation) ∧
    (isValidTransactionType req.type = false →
      createTransaction s req = .error .validation) ∧
    (req.type = "penerimaan" → req.amount < 0 →
      createTransaction s req = .error .validation) ∧
    (req.type = "pemakaian" → 0 < req.amount →
      createTransaction s req = .error .validation) ∧
    (req.amount ≠ 0 → req.type = "stok_awal" →
      firstStockExists s req.orgId req.itemId = true →
      createTransaction s req = .error .conflict) ∧
    (∀ err, createTransaction s req = .error err →
      committed s (createTransaction s req) = s) ∧
    (req.amount ≠ 0 → isValidTransactionType req.type = true →
      (req.type = "penerimaan" → ¬ req.amount < 0) →
      (req.type = "pemakaian" → ¬ 0 < req.amount) →
      (req.type = "stok_awal" →
        firstStockExists s req.orgId req.itemId = false) →
      createTransaction s req = .ok (createTransactionOk s req)) := by
  refine ⟨?_, ?_, ?_, ?_, ?_, ?_, ?_⟩
  · intro h
    unfold createTransaction
    rw [if_pos h]
  · intro h
    have ht1 : ¬ (req.type = "pemakaian" ∧ 0 < req.amount) := by
      rintro ⟨h1, _⟩
      rw [h1] at h
      exact absurd h (by decide)
    have ht2 : ¬ (req.type = "penerimaan" ∧ req.amount < 0) := by
      rintro ⟨h1, _⟩
      rw [h1] at h
      exact absurd h (by decide)
    unfold createTransaction
    by_cases h0 : req.amount = 0
    · rw [if_pos h0]
    · rw [if_neg h0, if_neg ht1, if_neg ht2, if_pos h]
  · intro ht ha
    have h0 : ¬ req.amount = 0 := by omega
    have h1 : ¬ (req.type = "pemakaian" ∧ 0 < req.amount) := by
      rintro ⟨hx, _⟩
      rw [ht] at hx
      exact absurd hx (by decide)
    unfold createTransaction
    rw [if_neg h0, if_neg h1, if_pos ⟨ht, ha⟩]
  · intro ht ha
    have h0 : ¬ req.amount = 0 := by omega
    unfold createTransaction
    rw [if_neg h0, if_pos ⟨ht, ha⟩]
  · intro ha ht hf
    have h1 : ¬ (req.type = "pemakaian" ∧ 0 < req.amount) := by
      rintro ⟨hx, _⟩
      rw [ht] at hx
      exact absurd hx (by decide)
    have h2 : ¬ (req.type = "penerimaan" ∧ req.amount < 0) := by
      rintro ⟨hx, _⟩
      rw [ht] at hx
      exact absurd hx (by decide)
    have h3 : ¬ (isValidTransactionType req.type = false) := by
      rw [ht]
      decide
    unfold createTransaction
    rw [if_neg ha, if_neg h1, if_neg h2, if_neg h3, if_pos ⟨ht, hf⟩]
  · intro err h
    rw [h]
    rfl
  · intro ha hv hpen hpem hfs
    have h1 : ¬ (req.type = "pemakaian" ∧ 0 < req.amount) := by
      rintro ⟨hx, hy⟩
      exact hpem hx hy
    have h2 : ¬ (req.type = "penerimaan" ∧ req.amount < 0) := by
      rintro ⟨hx, hy⟩
      exact hpen hx hy
    have h3 : ¬ (isValidTransactionType req.type = false) := by
      rw [hv]
      decide
    have h4 : ¬ (req.type = "stok_awal" ∧
        firstStockExists s req.orgId req.itemId = true) := by
      rintro ⟨hx, hy⟩
      rw [hfs hx] at hy
      exact absurd hy (by decide)
    unfold createTransaction
    rw [if_neg ha, if_neg h1, if_neg h2, if_neg h3, if_neg h4]

/-- Witness for C3 at a concrete request (a receipt of 10 on the empty
store succeeds). -/
theorem c3_witness :
    createTransaction init c1req1 = .ok (createTransactionOk init c1req1) :=
  (c3_create_validation init c1req1).2.2.2.2.2.2 (by decide) (by decide)
    (fun _ => by decide) (fun h => absurd h (by decide))
    (fun _ => by decide)

def c4req : MutReq :=
  { fromOrgId := 1, toOrgId := 2, itemId := 1, qty := 0, txnDate := 1 }

def c4state : LedgerState := (createMutation init c4req).toOption.getD init

/-- **C4 counterexample.** The claim says the CORE rejects every mutation
request with `qty < 1` with a validation error and writes nothing.  In
the source, the `qty >= 1` check lives only in the HTTP handler binding
tag; the service itself has no such guard: a `qty = 0` mutation on the
empty store passes the insufficient-stock guard (`0 < 0` is false),
succeeds and writes two rows. -/
theorem c4_counterexample :
    c4req.qty < 1 ∧
    createMutation init c4req = .ok c4state ∧
    c4state.entries.length = init.entries.length + 2 :=
  ⟨by decide, rfl, by decide⟩

/-- **C4 (amended).** `qty >= 1` is enforced only at the HTTP boundary
(`binding:"required,min=1"`).  The core's `CreateMutation` performs no
quantity validation: a request with `qty < 1` fails only when the source
balance is below `qty` (insufficient stock), and otherwise succeeds,
writing the two mutation rows. -/
theorem c4_amended_no_core_qty_check (s : LedgerState) (req : MutReq)
    (hq : req.qty < 1) :
    (balanceAt s req.fromOrgId req.itemId req.txnDate < req.qty →
      createMutation s req = .error .insufficientStock) ∧
    (req.qty ≤ balanceAt s req.fromOrgId req.itemId req.txnDate →
      createMutation s req = .ok (createMutationOk s req) ∧
      (createMutationOk s req).entries.length = s.entries.length + 2) := by
  constructor
  · intro h
    unfold createMutation
    rw [if_pos h]
  · intro h
    constructor
    · unfold createMutation
      rw [if_neg (by omega)]
    · rw [createMutationOk_eq, recalc_fst_entries, List.length_map,
        recalc_fst_entries, List.length_map]
      show ((s.entries ++ [mutSrcEntry s req]) ++ [mutDstEntry s req]).length
        = s.entries.length + 2
      simp

/-- Witness for C4 (amended): the `qty = 0` request on the empty store. -/
theorem c4_witness :
    createMutation init c4req = .ok (createMutationOk init c4req) ∧
    (createMutationOk init c4req).entries.length
      = init.entries.length + 2 :=
  (c4_amended_no_core_qty_check init c4req (by decide)).2 (by decide)

def c5req : MutReq :=
  { fromOrgId := 1, toOrgId := 2, itemId := 1, qty := 1000, txnDate := 1 }

/-- **C5.** A mutation whose source balance at the transaction date is
strictly below the requested quantity fails with the insufficient-stock
error, and the transaction rollback leaves the whole store — both
partitions, all rows, every history record — unchanged. -/
theorem c5_insufficient_stock (s : LedgerState) (req : MutReq)
    (h : balanceAt s req.fromOrgId req.itemId req.txnDate < req.qty) :
    createMutation s req = .error .insufficientStock ∧
    committed s (createMutation s req) = s := by
  have h1 : createMutation s req = .error .insufficientStock := by
    unfold createMutation
    rw [if_pos h]
  exact ⟨h1, by rw [h1]; rfl⟩

/-- Witness for C5: transferring 1000 out of a partition holding 10. -/
theorem c5_witness :
    createMutation c1s1 c5req = .error .insufficientStock ∧
    committed c1s1 (createMutation c1s1 c5req) = c1s1 :=
  c5_insufficient_stock c1s1 c5req (by decide)

def c9req : UpdateReq := { inventoryId := 0, txnDate := 9, amount := 1 }

def c9s : LedgerState := (deleteTransaction c1s1 0).toOption.getD init

/-- **C9.** Update and delete of an entry id that does not exist, or that
is already tombstoned, fail with the not-found error (the `tx.First`
lookup carries gorm's soft-delete scope, so a tombstoned id is not
found); the rollback of the enclosing transaction leaves the ledger and
the history unchanged.  The last conjunct records that the lookup
excludes exactly the tombstoned rows: a miss means every stored row with
that id is tombstoned. -/
theorem c9_not_found (s : LedgerState) (req : UpdateReq) (k : Nat)
    (hu : findLive s req.inventoryId = none)
    (hd : findLive s k = none) :
    updateTransaction s req = .error .notFound ∧
    deleteTransaction s k = .error .notFound ∧
    committed s (updateTransaction s req) = s ∧
    committed s (deleteTransaction s k) = s ∧
    (∀ e ∈ s.entries, e.id = k → e.deleted = true) := by
  have h1 : updateTransaction s req = .error .notFound := by
    unfold updateTransaction
    rw [hu]
  have h2 : deleteTransaction s k = .error .notFound := by
    unfold deleteTransaction
    rw [hd]
  refine ⟨h1, h2, by rw [h1]; rfl, by rw [h2]; rfl, ?_⟩
  intro e he hid
  have hx := List.find?_eq_none.mp hd e he
  simpa [hid] using hx

/-- Witness for C9: updating and deleting an already-deleted row. -/
theorem c9_witness :
    updateTransaction c9s c9req = .error .notFound ∧
    deleteTransaction c9s 0 = .error .notFound ∧
    committed c9s (updateTransaction c9s c9req) = c9s ∧
    committed c9s (deleteTransaction c9s 0) = c9s ∧
    (∀ e ∈ c9s.entries, e.id = 0 → e.deleted = true) :=
  c9_not_found c9s c9req 0 (by decide) (by decide)

def c2entry : Entry :=
  { id := 0, orgId := 1, itemId := 1, txnDate := 1, createdAt := 0,
    amount := 40, balance := 40, kind := "opname", refId := none,
    fromOrgId := none, toOrgId := none, physicalQty := some 40,
    systemQty := some 0, difference := some 40, deleted := false }

def c2state : LedgerState :=
  { entries := [c2entry], history := [], fresh := 1 }

/-- **C2 counterexample.** The claim asserts the second of two
back-to-back `RecalculateForward` calls persists nothing for EVERY ledger
state, including tails containing count rows.  But the replay loop sets
`needsUpdate = true` unconditionally on every `opname` row, so with a
count row in the tail the second call saves it again (with identical
values): the write set is nonempty. -/
theorem c2_counterexample :
    WF c2state ∧
    (recalculateForward (recalculateForward c2state 1 1 0).1 1 1 0).2
      ≠ [] :=
  ⟨by unfold WF WFentries WFhist; decide, by decide⟩

/-- **C2 (amended).** When the live tail from the pivot contains no
count/opname rows, a second `RecalculateForward` call right after a first
one (no intervening writes) is write-free: its `batchUpdates` set is
empty.  (Count rows are re-saved on every call, which is what the
counterexample exhibits.) -/
theorem c2_amended_idempotent (s : LedgerState) (o i d : Nat)
    (hwf : WFentries s.entries s.fresh)
    (hnop : ∀ e ∈ liveTailFrom s o i d, e.kind ≠ "opname") :
    (recalculateForward (recalculateForward s o i d).1 o i d).2 = [] := by
  rw [recalc_snd]
  unfold recalcWrites
  rw [recalc_balanceBefore s o i d hwf, recalc_liveTail s o i d hwf]
  have hk : ∀ u ∈ recalcTail s o i d, u.kind ≠ "opname" := by
    intro u hu
    obtain ⟨t, ht, hcore⟩ := recalcFold_mem_core _ _ u hu
    rw [← hcore.2.2.2.2.2.1]
    exact hnop t ht
  have hc : chainOk (balanceBefore s o i d) (recalcTail s o i d) = true :=
    recalcFold_chain _ _
  rw [recalcFold_fix _ _ hk hc]

def c2wEntry : Entry :=
  { id := 0, orgId := 1, itemId := 1, txnDate := 1, createdAt := 0,
    amount := 100, balance := 55, kind := "penerimaan", refId := none,
    fromOrgId := none, toOrgId := none, physicalQty := none,
    systemQty := none, difference := none, deleted := false }

def c2wState : LedgerState :=
  { entries := [c2wEntry], history := [], fresh := 1 }

/-- Witness for C2 (amended): a delta-only tail whose first pass rewrites
a stale balance and whose second pass is write-free. -/
theorem c2_witness :
    (recalculateForward (recalculateForward c2wState 1 1 0).1 1 1 0).2
      = [] :=
  c2_amended_idempotent c2wState 1 1 0 (by unfold WFentries; decide)
    (by decide)

def c8r1 : CreateReq :=
  { orgId := 1, itemId := 1, txnDate := 1, amount := 100,
    type := "penerimaan", refId := none }

def c8r2 : CreateReq :=
  { orgId := 1, itemId := 1, txnDate := 2, amount := -30,
    type := "pemakaian", refId := none }

def c8r3 : CreateReq :=
  { orgId := 1, itemId := 1, txnDate := 3, amount := -20,
    type := "pemakaian", refId := none }

def c8s1 : LedgerState :=
  (createTransaction ((createTransaction ((createTransaction init
    c8r1).toOption.getD init) c8r2).toOption.getD init)
    c8r3).toOption.getD init

def c8s2 : LedgerState := (deleteTransaction c8s1 2).toOption.getD init

def c8e0 : Entry :=
  { id := 0, orgId := 1, itemId := 1, txnDate := 1, createdAt := 0,
    amount := 100, balance := 100, kind := "penerimaan", refId := none,
    fromOrgId := none, toOrgId := none, physicalQty := none,
    systemQty := none, difference := none, deleted := false }

def c8mid : Entry :=
  { id := 2, orgId := 1, itemId := 1, txnDate := 2, createdAt := 2,
    amount := -30, balance := 70, kind := "pemakaian", refId := none,
    fromOrgId := none, toOrgId := none, physicalQty := none,
    systemQty := none, difference := none, deleted := false }

/-- **C8.** Delete soft-deletes the looked-up row and recalculates its
partition from that row's date only: every stored row dated strictly
before the deleted one survives verbatim (stored balance included).  The
concrete conjuncts run the spec's example — deltas +100, −30, −20 on
three consecutive days, deleting the middle — and find current balance
80, stored balance 80 on the third row, the first row untouched at 100,
and the middle row tombstoned. -/
theorem c8_delete_recalc_frame (s : LedgerState) (k : Nat) (inv : Entry)
    (hwf : WF s) (hfl : findLive s k = some inv) :
    deleteTransaction s k = .ok (deleteOk s inv) ∧
    (∀ e ∈ s.entries, e.txnDate < inv.txnDate →
      e ∈ (deleteOk s inv).entries) ∧
    deleteTransaction c8s1 2 = .ok c8s2 ∧
    c8e0 ∈ c8s1.entries ∧ c8e0 ∈ c8s2.entries ∧ c8e0.balance = 100 ∧
    (∀ e ∈ c8s2.entries, e.id = 2 → e.deleted = true) ∧
    (c8s2.entries.find? (fun e => e.id == 4)).map Entry.balance = some 80 ∧
    currentBalance c8s2 1 1 = 80 := by
  refine ⟨?_, deleteOk_frame s hwf (findLive_spec hfl).1, rfl,
    by decide, by decide, by decide, by decide, by decide, by decide⟩
  unfold deleteTransaction
  simp only [hfl]

/-- Witness for C8 at the three-day scenario itself. -/
theorem c8_witness :
    deleteTransaction c8s1 2 = .ok (deleteOk c8s1 c8mid) ∧
    (∀ e ∈ c8s1.entries, e.txnDate < c8mid.txnDate →
      e ∈ (deleteOk c8s1 c8mid).entries) ∧
    deleteTransaction c8s1 2 = .ok c8s2 ∧
    c8e0 ∈ c8s1.entries ∧ c8e0 ∈ c8s2.entries ∧ c8e0.balance = 100 ∧
    (∀ e ∈ c8s2.entries, e.id = 2 → e.deleted = true) ∧
    (c8s2.entries.find? (fun e => e.id == 4)).map Entry.balance = some 80 ∧
    currentBalance c8s2 1 1 = 80 :=
  c8_delete_recalc_frame c8s1 2 c8mid
    (by unfold WF WFentries WFhist; decide) (by decide)

def c10ex : Entry :=
  { id := 0, orgId := 1, itemId := 1, txnDate := 1, createdAt := 0,
    amount := 10, balance := 10, kind := "penerimaan", refId := none,
    fromOrgId := none, toOrgId := none, physicalQty := none,
    systemQty := none, difference := none, deleted := false }

def c10req : UpdateReq := { inventoryId := 0, txnDate := 2, amount := 4 }

/-- **C10.** A successful update (count targets included) inserts one
brand-new live replacement row — its id unused by every previously stored
row — carrying the SAME `org_id`, `item_id`, `kind` and `ref_id` as the
row it replaces and the requested new date: an update can never move a
row to another partition or change its transaction kind. -/
theorem c10_update_preserves_identity (s : LedgerState) (req : UpdateReq)
    (existing : Entry) (hwf : WF s)
    (hfl : findLive s req.inventoryId = some existing) :
    ∃ t, updateTransaction s req = .ok t ∧
      ∃ e, e ∈ t.entries ∧ e.deleted = false ∧
        e.orgId = existing.orgId ∧ e.itemId = existing.itemId ∧
        e.kind = existing.kind ∧ e.refId = existing.refId ∧
        e.txnDate = req.txnDate ∧ ∀ x ∈ s.entries, x.id ≠ e.id := by
  by_cases hk : (existing.kind == "opname") = true
  · refine ⟨opnameUpdateOk (createHistory s existing "UPDATE_BEFORE")
      existing req, ?_, ?_⟩
    · unfold updateTransaction
      simp only [hfl]
      rw [if_pos hk]
    · have hwf1 : WFentries (softDelete (createHistory s existing
          "UPDATE_BEFORE") existing.id).entries
          (softDelete (createHistory s existing "UPDATE_BEFORE")
            existing.id).fresh :=
        wf_softDelete _ _ (wf_hist s existing "UPDATE_BEFORE" hwf.1)
      have hwf2 := @wf_push
        (softDelete (createHistory s existing "UPDATE_BEFORE") existing.id)
        (opnameNewEntry (createHistory s existing "UPDATE_BEFORE")
          existing req) hwf1 rfl rfl
      have hmem2 : opnameNewEntry (createHistory s existing "UPDATE_BEFORE")
          existing req ∈ (pushEntry
            (softDelete (createHistory s existing "UPDATE_BEFORE")
              existing.id)
            (opnameNewEntry (createHistory s existing "UPDATE_BEFORE")
              existing req)).entries :=
        List.mem_append_right _ (List.mem_singleton.mpr rfl)
      have hcore := updAssoc_recalc_core _ existing.orgId existing.itemId
        req.txnDate hwf2.1 hmem2
      refine ⟨_, List.mem_map_of_mem _ hmem2,
        hcore.2.2.2.2.2.2.2.2.2.1.symm, hcore.2.1.symm, hcore.2.2.1.symm,
        hcore.2.2.2.2.2.1.symm.trans (eq_of_beq hk).symm,
        hcore.2.2.2.2.2.2.1.symm, hcore.2.2.2.1.symm, ?_⟩
      intro x hx hEq
      have h1 : x.id < s.fresh := (hwf.1.2.2 x hx).1
      have h2 : x.id = s.fresh + 1 := hEq.trans hcore.1.symm
      omega
  · refine ⟨updateOk s existing req, ?_, ?_⟩
    · unfold updateTransaction
      simp only [hfl]
      rw [if_neg hk]
    · have hwf1 : WFentries (softDelete (createHistory s existing
          "UPDATE_BEFORE") existing.id).entries
          (softDelete (createHistory s existing "UPDATE_BEFORE")
            existing.id).fresh :=
        wf_softDelete _ _ (wf_hist s existing "UPDATE_BEFORE" hwf.1)
      have hwf2 := @wf_push
        (softDelete (createHistory s existing "UPDATE_BEFORE") existing.id)
        (updateNewEntry (softDelete (createHistory s existing
          "UPDATE_BEFORE") existing.id) existing req) hwf1 rfl rfl
      have hwf3 := wf_hist (pushEntry
        (softDelete (createHistory s existing "UPDATE_BEFORE") existing.id)
        (updateNewEntry (softDelete (createHistory s existing
          "UPDATE_BEFORE") existing.id) existing req))
        (updateNewEntry (softDelete (createHistory s existing
          "UPDATE_BEFORE") existing.id) existing req) "UPDATE_AFTER" hwf2
      have hmem3 : updateNewEntry (softDelete (createHistory s existing
          "UPDATE_BEFORE") existing.id) existing req ∈ (createHistory
          (pushEntry
            (softDelete (createHistory s existing "UPDATE_BEFORE")
              existing.id)
            (updateNewEntry (softDelete (createHistory s existing
              "UPDATE_BEFORE") existing.id) existing req))
          (updateNewEntry (softDelete (createHistory s existing
            "UPDATE_BEFORE") existing.id) existing req)
          "UPDATE_AFTER").entries :=
        List.mem_append_right _ (List.mem_singleton.mpr rfl)
      have hcore := updAssoc_recalc_core _ existing.orgId existing.itemId
        (min existing.txnDate req.txnDate) hwf3.1 hmem3
      refine ⟨_, List.mem_map_of_mem _ hmem3,
        hcore.2.2.2.2.2.2.2.2.2.1.symm, hcore.2.1.symm, hcore.2.2.1.symm,
        hcore.2.2.2.2.2.1.symm, hcore.2.2.2.2.2.2.1.symm,
        hcore.2.2.2.1.symm, ?_⟩
      intro x hx hEq
      have h1 : x.id < s.fresh := (hwf.1.2.2 x hx).1
      have h2 : x.id = s.fresh + 1 := hEq.trans hcore.1.symm
      omega

/-- Witness for C10: updating the day-1 receipt of 10 to day 2. -/
theorem c10_witness :
    ∃ t, updateTransaction c1s1 c10req = .ok t ∧
      ∃ e, e ∈ t.entries ∧ e.deleted = false ∧
        e.orgId = c10ex.orgId ∧ e.itemId = c10ex.itemId ∧
        e.kind = c10ex.kind ∧ e.refId = c10ex.refId ∧
        e.txnDate = c10req.txnDate ∧ ∀ x ∈ c1s1.entries, x.id ≠ e.id :=
  c10_update_preserves_identity c1s1 c10req c10ex
    (by unfold WF WFentries WFhist; decide) (by decide)

/-- The live-mutation-rows-carrying-a-ref-id predicate of claim C6. -/
def mutRefPred (r : Option Nat) (e : Entry) : Bool :=
  !e.deleted && e.refId == r && e.kind == "mutation"

def c6mreq : MutReq :=
  { fromOrgId := 1, toOrgId := 2, itemId := 1, qty := 5, txnDate := 2 }

def c6s2 : LedgerState := (createMutation c1s1 c6mreq).toOption.getD init

def c6s3 : LedgerState := (deleteTransaction c6s2 3).toOption.getD init

/-- **C6 counterexample.** The claim asserts the two-legs-per-ref-id
pairing after EVERY committed operation.  Deleting one leg of a committed
mutation (a committed public operation) leaves a ref id carried by
exactly one live mutation row: the pairing is not an invariant of the
whole surface. -/
theorem c6_counterexample :
    createMutation c1s1 c6mreq = .ok c6s2 ∧
    deleteTransaction c6s2 3 = .ok c6s3 ∧
    (c6s2.entries.filter (mutRefPred (some 2))).length = 2 ∧
    (c6s3.entries.filter (mutRefPred (some 2))).length = 1 :=
  ⟨rfl, rfl, by decide, by decide⟩

/-- **C6 (amended).** Right after a committed mutation the freshly minted
ref id is carried by exactly two live rows: the source leg in
`(from_org, item)` with amount `−qty` and the destination leg in
`(to_org, item)` with amount `+qty`, both of kind mutation, both naming
the same source and destination organisations — amounts summing to 0.
(The pairing holds at creation but is NOT preserved by later updates or
deletes of a single leg, as the counterexample shows.) -/
theorem c6_amended_mutation_pairing (s : LedgerState) (req : MutReq)
    (t : LedgerState) (hwf : WF s)
    (hnew : ∀ e ∈ s.entries, e.refId ≠ some s.fresh)
    (h : createMutation s req = .ok t) :
    ∃ a b,
      t.entries.filter (mutRefPred (some s.fresh)) = [a, b] ∧
      a.orgId = req.fromOrgId ∧ a.itemId = req.itemId ∧
      a.amount = -req.qty ∧ a.kind = "mutation" ∧
      a.fromOrgId = some req.fromOrgId ∧ a.toOrgId = some req.toOrgId ∧
      b.orgId = req.toOrgId ∧ b.itemId = req.itemId ∧
      b.amount = req.qty ∧ b.kind = "mutation" ∧
      b.fromOrgId = some req.fromOrgId ∧ b.toOrgId = some req.toOrgId ∧
      a.amount + b.amount = 0 := by
  unfold createMutation at h
  split at h
  · cases h
  injection h with h2
  subst h2
  have hp : ∀ x y : Entry, sameCore x y →
      mutRefPred (some s.fresh) x = mutRefPred (some s.fresh) y := by
    intro x y hc
    obtain ⟨-, -, -, -, -, h6, h7, -, -, h10, -⟩ := hc
    unfold mutRefPred
    rw [h6, h7, h10]
  have hX : WFentries (mutState4 s req).entries (mutState4 s req).fresh :=
    wf_mutState4 s req hwf.1
  have hX1 : WFentries
      ((recalculateForward (mutState4 s req) req.fromOrgId req.itemId
        req.txnDate).1).entries
      ((recalculateForward (mutState4 s req) req.fromOrgId req.itemId
        req.txnDate).1).fresh := wf_recalc _ _ _ _ hX
  have hsrcP : mutRefPred (some s.fresh) (mutSrcEntry s req) = true := by
    unfold mutRefPred mutSrcEntry
    simp
  have hdstP : mutRefPred (some s.fresh) (mutDstEntry s req) = true := by
    unfold mutRefPred mutDstEntry
    simp
  have hzero : s.entries.filter (mutRefPred (some s.fresh)) = [] := by
    rw [List.filter_eq_nil_iff]
    intro e he hpe
    apply hnew e he
    unfold mutRefPred at hpe
    simp only [Bool.and_eq_true, beq_iff_eq] at hpe
    exact hpe.1.2
  have hbase : (mutState4 s req).entries.filter (mutRefPred (some s.fresh))
      = [mutSrcEntry s req, mutDstEntry s req] := by
    show ((s.entries ++ [mutSrcEntry s req]) ++ [mutDstEntry s req]).filter
        (mutRefPred (some s.fresh)) = [mutSrcEntry s req, mutDstEntry s req]
    rw [List.filter_append, List.filter_append, hzero, List.filter_cons,
      if_pos hsrcP, List.filter_cons, if_pos hdstP, List.filter_nil]
    simp
  have hfilt : (createMutationOk s req).entries.filter
      (mutRefPred (some s.fresh))
      = [updAssoc (recalcWrites (recalculateForward (mutState4 s req)
            req.fromOrgId req.itemId req.txnDate).1 req.toOrgId req.itemId
            req.txnDate)
          (updAssoc (recalcWrites (mutState4 s req) req.fromOrgId req.itemId
            req.txnDate) (mutSrcEntry s req)),
         updAssoc (recalcWrites (recalculateForward (mutState4 s req)
            req.fromOrgId req.itemId req.txnDate).1 req.toOrgId req.itemId
            req.txnDate)
          (updAssoc (recalcWrites (mutState4 s req) req.fromOrgId req.itemId
            req.txnDate) (mutDstEntry s req))] := by
    rw [createMutationOk_eq]
    rw [recalc_filter_core (recalculateForward (mutState4 s req)
      req.fromOrgId req.itemId req.txnDate).1 req.toOrgId req.itemId
      req.txnDate hX1 (mutRefPred (some s.fresh)) hp]
    rw [recalc_filter_core (mutState4 s req) req.fromOrgId req.itemId
      req.txnDate hX (mutRefPred (some s.fresh)) hp]
    rw [hbase]
    rfl
  have hmemS : mutSrcEntry s req ∈ (mutState4 s req).entries :=
    List.mem_append_left _
      (List.mem_append_right _ (List.mem_singleton.mpr rfl))
  have hmemD : mutDstEntry s req ∈ (mutState4 s req).entries :=
    List.mem_append_right _ (List.mem_singleton.mpr rfl)
  have hmemS1 : updAssoc (recalcWrites (mutState4 s req) req.fromOrgId
      req.itemId req.txnDate) (mutSrcEntry s req)
      ∈ ((recalculateForward (mutState4 s req) req.fromOrgId req.itemId
        req.txnDate).1).entries := List.mem_map_of_mem _ hmemS
  have hmemD1 : updAssoc (recalcWrites (mutState4 s req) req.fromOrgId
      req.itemId req.txnDate) (mutDstEntry s req)
      ∈ ((recalculateForward (mutState4 s req) req.fromOrgId req.itemId
        req.txnDate).1).entries := List.mem_map_of_mem _ hmemD
  have hcA := sameCore_trans
    (updAssoc_recalc_core _ req.fromOrgId req.itemId req.txnDate hX.1 hmemS)
    (updAssoc_recalc_core _ req.toOrgId req.itemId req.txnDate hX1.1 hmemS1)
  have hcB := sameCore_trans
    (updAssoc_recalc_core _ req.fromOrgId req.itemId req.txnDate hX.1 hmemD)
    (updAssoc_recalc_core _ req.toOrgId req.itemId req.txnDate hX1.1 hmemD1)
  have hne : ("mutation" : String) ≠ "opname" := by decide
  refine ⟨_, _, hfilt, hcA.2.1.symm, hcA.2.2.1.symm,
    (hcA.2.2.2.2.2.2.2.2.2.2 hne).symm, hcA.2.2.2.2.2.1.symm,
    hcA.2.2.2.2.2.2.2.1.symm, hcA.2.2.2.2.2.2.2.2.1.symm,
    hcB.2.1.symm, hcB.2.2.1.symm,
    (hcB.2.2.2.2.2.2.2.2.2.2 hne).symm, hcB.2.2.2.2.2.1.symm,
    hcB.2.2.2.2.2.2.2.1.symm, hcB.2.2.2.2.2.2.2.2.1.symm, ?_⟩
  rw [(hcA.2.2.2.2.2.2.2.2.2.2 hne).symm,
    (hcB.2.2.2.2.2.2.2.2.2.2 hne).symm]
  show -req.qty + req.qty = 0
  omega

/-- Witness for C6 (amended): the 5-unit transfer out of a 10-unit
partition. -/
theorem c6_witness :
    ∃ a b,
      c6s2.entries.filter (mutRefPred (some c1s1.fresh)) = [a, b] ∧
      a.orgId = c6mreq.fromOrgId ∧ a.itemId = c6mreq.itemId ∧
      a.amount = -c6mreq.qty ∧ a.kind = "mutation" ∧
      a.fromOrgId = some c6mreq.fromOrgId ∧
      a.toOrgId = some c6mreq.toOrgId ∧
      b.orgId = c6mreq.toOrgId ∧ b.itemId = c6mreq.itemId ∧
      b.amount = c6mreq.qty ∧ b.kind = "mutation" ∧
      b.fromOrgId = some c6mreq.fromOrgId ∧
      b.toOrgId = some c6mreq.toOrgId ∧
      a.amount + b.amount = 0 :=
  c6_amended_mutation_pairing c1s1 c6mreq c6s2
    (by unfold WF WFentries WFhist; decide) (by decide) rfl

def c7snap : SnapItem :=
  { entryId := 0, txnDate := 1, amount := 10, balance := 10,
    kind := "penerimaan", refId := none }

def c7hr : HistRecord :=
  { id := 1, orgId := 1, itemId := 1, triggerId := some 0,
    snapshotFromDate := 1, action := "CREATE", dataBefore := none,
    dataAfter := some [c7snap] }

/-- **C7 counterexample.** The claim says EVERY committed update writes
one `UPDATE_BEFORE` and one `UPDATE_AFTER`.  But an update whose target
is a count/opname row delegates to `handleOpnameUpdate` right after the
`UPDATE_BEFORE`, and that path records no further history: the committed
state carries the `UPDATE_BEFORE` and no `UPDATE_AFTER` at all. -/
theorem c7_counterexample :
    updateTransaction c1s3 c1upd = .ok c1s4 ∧
    (findLive c1s3 c1upd.inventoryId).map Entry.kind = some "opname" ∧
    histActions c1s4 = histActions c1s3 ++ ["UPDATE_BEFORE"] ∧
    (histActions c1s4).count "UPDATE_AFTER" = 0 :=
  ⟨rfl, by decide, by decide, by decide⟩

/-- **C7 (amended).** A committed update of a non-count row writes
exactly one `UPDATE_BEFORE` then one `UPDATE_AFTER`; a committed update
of a count/opname row writes exactly one `UPDATE_BEFORE` and nothing
else; a committed delete writes exactly one `DELETE_BEFORE`; a committed
rollback writes exactly one `ROLLBACK` record. -/
theorem c7_amended_history_records (s : LedgerState) (req : UpdateReq)
    (k hid : Nat) (existing inv : Entry) (hr : HistRecord)
    (items : List SnapItem)
    (hflu : findLive s req.inventoryId = some existing)
    (hfld : findLive s k = some inv)
    (hfh : s.history.find? (fun x => x.id == hid) = some hr)
    (hsup : rollbackSupported hr.action = true)
    (hsrc : rollbackSource hr = some items) :
    (existing.kind ≠ "opname" →
      ∃ t, updateTransaction s req = .ok t ∧
        histActions t = histActions s ++ ["UPDATE_BEFORE", "UPDATE_AFTER"]) ∧
    (existing.kind = "opname" →
      ∃ t, updateTransaction s req = .ok t ∧
        histActions t = histActions s ++ ["UPDATE_BEFORE"]) ∧
    (∃ t, deleteTransaction s k = .ok t ∧
      histActions t = histActions s ++ ["DELETE_BEFORE"]) ∧
    (∃ t, rollbackTransaction s hid = .ok t ∧
      histActions t = histActions s ++ ["ROLLBACK"]) := by
  refine ⟨?_, ?_, ?_, ?_⟩
  · intro hk
    refine ⟨updateOk s existing req, ?_, ?_⟩
    · unfold updateTransaction
      simp only [hflu]
      rw [if_neg (fun hc => hk (eq_of_beq hc))]
    · rw [show updateOk s existing req = (recalculateForward (createHistory
        (pushEntry
          (softDelete (createHistory s existing "UPDATE_BEFORE")
            existing.id)
          (updateNewEntry (softDelete (createHistory s existing
            "UPDATE_BEFORE") existing.id) existing req))
        (updateNewEntry (softDelete (createHistory s existing
          "UPDATE_BEFORE") existing.id) existing req) "UPDATE_AFTER")
        existing.orgId existing.itemId
        (min existing.txnDate req.txnDate)).1 from rfl]
      rw [histActions_recalc, histActions_hist, histActions_push,
        histActions_softDelete, histActions_hist, List.append_assoc]
      rfl
  · intro hk
    refine ⟨opnameUpdateOk (createHistory s existing "UPDATE_BEFORE")
      existing req, ?_, ?_⟩
    · unfold updateTransaction
      simp only [hflu]
      rw [if_pos (by simp [hk])]
    · rw [show opnameUpdateOk (createHistory s existing "UPDATE_BEFORE")
        existing req = (recalculateForward (pushEntry
          (softDelete (createHistory s existing "UPDATE_BEFORE")
            existing.id)
          (opnameNewEntry (createHistory s existing "UPDATE_BEFORE")
            existing req)) existing.orgId existing.itemId
        req.txnDate).1 from rfl]
      rw [histActions_recalc, histActions_push, histActions_softDelete,
        histActions_hist]
  · refine ⟨deleteOk s inv, ?_, ?_⟩
    · unfold deleteTransaction
      simp only [hfld]
    · rw [show deleteOk s inv = (recalculateForward (softDelete
        (createHistory s inv "DELETE_BEFORE") inv.id) inv.orgId inv.itemId
        inv.txnDate).1 from rfl]
      rw [histActions_recalc, histActions_softDelete, histActions_hist]
  · refine ⟨rollbackOk s hr items, ?_, histActions_rollbackOk s hr items⟩
    unfold rollbackTransaction
    simp only [hfh]
    rw [hsup]
    rw [if_neg (show ¬ (true = false) from by decide)]
    simp only [hsrc]

/-- Witness for C7 (amended): update, delete and rollback on the one-row
store. -/
theorem c7_witness :
    (∃ t, updateTransaction c1s1 c10req = .ok t ∧
      histActions t = histActions c1s1 ++
        ["UPDATE_BEFORE", "UPDATE_AFTER"]) ∧
    (∃ t, deleteTransaction c1s1 0 = .ok t ∧
      histActions t = histActions c1s1 ++ ["DELETE_BEFORE"]) ∧
    (∃ t, rollbackTransaction c1s1 1 = .ok t ∧
      histActions t = histActions c1s1 ++ ["ROLLBACK"]) := by
  have h := c7_amended_history_records c1s1 c10req 0 1 c10ex c10ex c7hr
    [c7snap] (by decide) (by decide) (by decide) (by decide) (by decide)
  exact ⟨h.1 (by decide), h.2.2.1, h.2.2.2⟩

/-- **C1 counterexample.** The balance chain is claimed to hold after
EVERY committed operation.  Updating a count/opname row to a LATER date
is a committed operation after which it fails: `handleOpnameUpdate`
recalculates only from the NEW date, so the rows between the old and the
new date keep balances derived from the count that no longer precedes
them. -/
theorem c1_counterexample :
    updateTransaction c1s3 c1upd = .ok c1s4 ∧
    Balanced c1s3 ∧ ¬ Balanced c1s4 := by
  refine ⟨rfl, balanced_of_balancedB (by decide), fun hb => ?_⟩
  have h2 := hb 1 1
  unfold BalancedPartition at h2
  exact absurd h2 (by decide)

/-- **C1 (amended).** After every committed benign public operation the
balance chain holds in every partition: starting from a well-formed store
whose partitions are all chain-consistent, each of create, mutation,
count, delete, rollback — and each update that does not move a count row
to a strictly later date — commits a store whose live rows, in
`(txn_date, created_at)` order, satisfy the per-row balance law in every
partition.  (An update moving a count row to a later date can break the
chain, as the counterexample shows.) -/
theorem c1_amended_balance_invariant {s t : LedgerState} (op : Op)
    (hwf : WF s) (hb : Balanced s) (hben : benign s op)
    (h : applyOp op s = .ok t) : Balanced t :=
  balanced_step hwf hb hben h

/-- Witness for C1 (amended): the first create of the running scenario
commits a balanced store. -/
theorem c1_witness : Balanced c1s1 :=
  c1_amended_balance_invariant (Op.create c1req1)
    (by unfold WF WFentries WFhist; decide)
    (balanced_of_balancedB (by decide)) trivial rfl

end InvLedger
